import Mathlib

/-!
Shallow embedding of the pg-sql2 fragment algebra and compiler
(src/unnamed/part_000) together with theorems checking the
natural-language specification against it.

Conventions of the embedding:
* JavaScript `symbol` values are modelled as `JSSymbol`: a process-unique
  numeric identity plus an optional description string.  Two symbols are
  `===`-equal exactly when they are structurally equal here.
* JavaScript runtime values that may be passed to `value()` / `literal()`
  are modelled by `JSValue`.  TypeScript types are erased at runtime, so
  these functions are embedded over the full runtime value domain.
* The development flag `isDev` (`process.env.GRAPHILE_ENV === "development"`)
  is `false`: all compilation theorems are about production rendering, as in
  the specification's scenarios.  Development-only branches of the source are
  still embedded literally.
* Template interpolation of a number (`` `${n}` ``) is embedded by
  `natToString`, a standard decimal rendering.
-/

namespace PgSql2

set_option linter.unusedVariables false
set_option linter.unreachableTactic false
set_option linter.unusedTactic false

/-- `process.env.GRAPHILE_ENV === "development"`; production mode here. -/
def isDev : Bool := false

/-- ASCII decimal digit, the JS regex class `[0-9]`. -/
def isDigitCh (c : Char) : Bool := '0' ≤ c && c ≤ '9'

/-- ASCII lower-case letter, the JS regex class `[a-z]`. -/
def isLowerAZ (c : Char) : Bool := 'a' ≤ c && c ≤ 'z'

/-- ASCII upper-case letter, the JS regex class `[A-Z]`. -/
def isUpperAZ (c : Char) : Bool := 'A' ≤ c && c ≤ 'Z'

/-- The JS regex class `[a-zA-Z0-9_]` (word character). -/
def isWordChar (c : Char) : Bool := isLowerAZ c || isUpperAZ c || isDigitCh c || c = '_'

/-- Decimal digits of a natural number, most significant first
(JS template interpolation of a non-negative integer). -/
def natDigits (n : Nat) : List Char :=
  if h : n < 10 then [Nat.digitChar n]
  else natDigits (n / 10) ++ [Nat.digitChar (n % 10)]
termination_by n
decreasing_by
  exact Nat.div_lt_self (by omega) (by omega)

/-- Decimal string of a natural number. -/
def natToString (n : Nat) : String := String.mk (natDigits n)

/-- `^\$[0-9]+$` -/
def matchesDollarNum : List Char → Bool
  | '$' :: ds => !ds.isEmpty && ds.all isDigitCh
  | _ => false

/-- `^[0-9]+(?:\.[0-9]+)?$` -/
def matchesNumber (cs : List Char) : Bool :=
  let intPart := cs.takeWhile isDigitCh
  let rest := cs.dropWhile isDigitCh
  !intPart.isEmpty &&
    (rest.isEmpty ||
      (match rest with
       | '.' :: fs => !fs.isEmpty && fs.all isDigitCh
       | _ => false))

/-- `^\.[0-9]+$` -/
def matchesDotNumber : List Char → Bool
  | '.' :: ds => !ds.isEmpty && ds.all isDigitCh
  | _ => false

/-- `^'[^']+'$` : a single-quoted string with a non-empty body free of quotes. -/
def matchesSingleQuoted (cs : List Char) : Bool :=
  match cs with
  | '\'' :: rest =>
    match rest.getLast? with
    | some last =>
      last = '\'' && !rest.dropLast.isEmpty && rest.dropLast.all (fun c => c ≠ '\'')
    | none => false
  | _ => false

/-- `^"[^"]+"$` : a double-quoted part with a non-empty body free of quotes. -/
def matchesDoubleQuoted (cs : List Char) : Bool :=
  match cs with
  | '"' :: rest =>
    match rest.getLast? with
    | some last =>
      last = '"' && !rest.dropLast.isEmpty && rest.dropLast.all (fun c => c ≠ '"')
    | none => false
  | _ => false

/-- `expr.split(".")` on the character list (JS `String.prototype.split`
with a one-character separator). -/
def splitOnDot : List Char → List (List Char)
  | [] => [[]]
  | c :: rest =>
    match splitOnDot rest with
    | [] => [[]]
    | h :: t => if c = '.' then [] :: h :: t else (c :: h) :: t

/-- `isParensSafe(expr)`: true if the rendered expression needs no extra
parentheses when embedded into a larger expression. -/
def isParensSafe (expr : String) : Bool :=
  let cs := expr.data
  if matchesDollarNum cs then true
  else if matchesNumber cs || matchesDotNumber cs then true
  else if matchesSingleQuoted cs then true
  else
    (splitOnDot cs).all
      (fun p => matchesDoubleQuoted p || (!p.isEmpty && p.all isWordChar))

/-- Characters kept by `mangleName`, the class `[a-z0-9_]`. -/
def mangleKeep (c : Char) : Bool := isLowerAZ c || isDigitCh c || c = '_'

/-- `.replace(/[A-Z]/g, (l) => _ + l.toLowerCase())` -/
def mangleLowerStep (cs : List Char) : List Char :=
  cs.flatMap (fun c => if isUpperAZ c then ['_', c.toLower] else [c])

theorem dropWhile_length_le {α : Type} (p : α → Bool) (l : List α) :
    (l.dropWhile p).length ≤ l.length := by
  induction l with
  | nil => simp [List.dropWhile]
  | cons a t ih =>
    by_cases h : p a = true
    · simpa [List.dropWhile, h] using Nat.le_succ_of_le ih
    · simp [List.dropWhile, h]

/-- `.replace(/[^a-z0-9_]+/g, "_")`: each maximal run of disallowed
characters becomes a single underscore. -/
def collapseBadRuns : List Char → List Char
  | [] => []
  | c :: rest =>
    if mangleKeep c then c :: collapseBadRuns rest
    else '_' :: collapseBadRuns (rest.dropWhile (fun d => !mangleKeep d))
termination_by cs => cs.length
decreasing_by
  · simp only [List.length_cons]; omega
  · simp only [List.length_cons]
    exact Nat.lt_succ_of_le (dropWhile_length_le _ _)

/-- `.replace(/__+/g, "_")`: each run of underscores becomes a single one. -/
def collapseUnderscoreRuns : List Char → List Char
  | [] => []
  | c :: rest =>
    if c = '_' then '_' :: collapseUnderscoreRuns (rest.dropWhile (fun d => d = '_'))
    else c :: collapseUnderscoreRuns rest
termination_by cs => cs.length
decreasing_by
  · simp only [List.length_cons]
    exact Nat.lt_succ_of_le (dropWhile_length_le _ _)
  · simp only [List.length_cons]; omega

/-- `.replace(/^_/, "")` -/
def dropLeadingUnderscore : List Char → List Char
  | '_' :: rest => rest
  | cs => cs

/-- `.replace(/_$/, "")` -/
def dropTrailingUnderscore (cs : List Char) : List Char :=
  if cs.getLast? = some '_' then cs.dropLast else cs

/-- `mangleName(str)`: SQL-identifier-safe rendering of a description string,
characters `[0-9a-z_]` only, at most 50 characters, no leading or trailing
or consecutive underscores, defaulting to `"local"` when empty. -/
def mangleName (str : String) : String :=
  let r :=
    dropTrailingUnderscore
      (List.take 50
        (dropLeadingUnderscore
          (collapseUnderscoreRuns (collapseBadRuns (mangleLowerStep str.data)))))
  if r.isEmpty then "local" else String.mk r

/-- `escapeSqlIdentifier(str)`: wrap in double quotes, doubling embedded ones. -/
def escapeSqlIdentifier (str : String) : String :=
  "\"" ++ (str.replace "\"" "\"\"") ++ "\""

/-- A JavaScript `symbol`: process-unique identity plus optional description.
`===` on symbols is structural equality of this type. -/
structure JSSymbol where
  id : Nat
  description : Option String
deriving DecidableEq, Repr

/-- A JavaScript number as observed by `literal`: an integer, a finite
non-integer (carrying its JS string rendering), or a non-finite number. -/
inductive JSNumber
  | int (i : Int)
  | decimal (repr : String)
  | nonFinite
deriving DecidableEq, Repr

/-- A JavaScript runtime value as may be passed to `value()` / `literal()`:
TypeScript's `SQLRawValue` scalars plus the values its types exclude
(`undefined` and plain objects, the latter tagged by identity). -/
inductive JSValue
  | str (s : String)
  | num (n : JSNumber)
  | bool (b : Bool)
  | null
  | undef
  | arr (vs : List JSValue)
  | obj (id : Nat)

/-- `SymbolAndName`: a symbol together with its mangled description. -/
structure SymbolAndName where
  s : JSSymbol
  n : String
deriving DecidableEq, Repr

/-- `getSymbolAndName(symbol)`: pair the symbol with
`mangleName(symbol.description || "local")`. -/
def getSymbolAndName (symbol : JSSymbol) : SymbolAndName :=
  { s := symbol,
    n := mangleName (match symbol.description with
                     | some d => if d = "" then "local" else d
                     | none => "local") }

/-- One entry of an `IDENTIFIER` node's `names`: a pre-escaped string or a
symbol-and-name pair. -/
inductive IdentName
  | str (s : String)
  | sym (sn : SymbolAndName)
deriving DecidableEq, Repr

mutual

/-- A non-`QUERY` SQL node (`SQLNode` in the source). -/
inductive SQLNode
  | raw (text : String)
  | identifier (names : List IdentName)
  | value (v : JSValue)
  | indent (content : SQL)
  | parens (content : SQL) (force : Bool)
  | symbolAlias (a : SymbolAndName) (b : SymbolAndName)
  | placeholder (symbol : JSSymbol) (fallback : Option SQL)

/-- An SQL fragment (`SQL` in the source): a single node or a `QUERY`
holding a flat list of nodes plus flags. -/
inductive SQL
  | node (n : SQLNode)
  | query (nodes : List SQLNode) (flags : Nat)

end

/-- Association-list lookup, modelling `Map.prototype.get` / object index. -/
def alookup {α β : Type} [DecidableEq α] : List (α × β) → α → Option β
  | [], _ => none
  | (k, v) :: rest, key => if k = key then some v else alookup rest key

/-- Association-list insert, modelling `Map.prototype.set` / object index
assignment (the new binding shadows any previous one). -/
def ainsert {α β : Type} (m : List (α × β)) (k : α) (v : β) : List (α × β) :=
  (k, v) :: m

/-- The mutable scratch state of one `compile` call: the collected values,
the value counter, the `symbolToIdentifier` map and the per-description
`descCounter`. -/
structure CompileState where
  values : List JSValue
  valueCount : Nat
  symbolToIdentifier : List (JSSymbol × String)
  descCounter : List (String × Nat)

/-- The state at the start of a `compile` call. -/
def initState : CompileState :=
  { values := [], valueCount := 0, symbolToIdentifier := [], descCounter := [] }

/-- The alias string built by `makeIdentifierForSymbol` for a description
`safeDesc` whose counter has been bumped to `number`:
`` `__${safeDesc}_${number === 1 ? "_" : number}` ``. -/
def aliasString (safeDesc : String) (number : Nat) : String :=
  "__" ++ safeDesc ++ "_" ++ (if number = 1 then "_" else natToString number)

/-- `makeIdentifierForSymbol(name)`: bump the counter for the mangled
description, build the alias, record it for the symbol, and return it. -/
def makeIdentifierForSymbol (st : CompileState) (name : SymbolAndName) :
    String × CompileState :=
  -- JS: `if (!descCounter[safeDesc]) descCounter[safeDesc] = 0;` then
  -- `const number = ++descCounter[safeDesc];` (a stored counter is ≥ 1,
  -- so the falsy check only fires when the entry is absent).
  let prev := (alookup st.descCounter name.n).getD 0
  let number := prev + 1
  let identifierForSymbol := aliasString name.n number
  (identifierForSymbol,
   { st with
     descCounter := ainsert st.descCounter name.n number,
     symbolToIdentifier := ainsert st.symbolToIdentifier name.s identifierForSymbol })

/-- Errors a `compile` call can raise.  `fuelExhausted` models the stack
overflow a JS run would hit on unboundedly recursive placeholder values. -/
inductive CompileError
  | tooManyPlaceholders
  | indentNotInDev
  | unresolvedPlaceholder
  | conflictingSymbolAlias
  | fuelExhausted
deriving DecidableEq, Repr

/-- `"  ".repeat(n)` -/
def indentSpaces (n : Nat) : String := String.join (List.replicate n "  ")

/-- Dev-mode rendering of raw text: each embedded newline is followed by
`indent` copies of two spaces (`text.replace(/\n/g, "\n" + "  ".repeat(indent))`). -/
def devRawText (text : String) (indent : Nat) : String :=
  text.replace "\n" ("\n" ++ indentSpaces indent)

mutual

/-- Size of a fragment, used as the termination measure of the printer. -/
def sizeSQL : SQL → Nat
  | .node n => sizeNode n + 1
  | .query nodes _ => sizeNodes nodes + 1

/-- Size of a node. -/
def sizeNode : SQLNode → Nat
  | .raw _ => 1
  | .identifier _ => 1
  | .value _ => 1
  | .indent c => sizeSQL c + 1
  | .parens c _ => sizeSQL c + 1
  | .symbolAlias _ _ => 1
  | .placeholder _ _ => 1

/-- Size of a node list. -/
def sizeNodes : List SQLNode → Nat
  | [] => 0
  | n :: rest => sizeNode n + sizeNodes rest + 1

end

/-- The `IDENTIFIER` loop body of `print`: map each name to its emitted
string, assigning aliases to first-seen symbols in order. -/
def mapIdentifierNames (st : CompileState) :
    List IdentName → List String × CompileState
  | [] => ([], st)
  | name :: rest =>
    match name with
    | .str s =>
      -- "This was escaped inside of sql.identifier"
      let (tail, st') := mapIdentifierNames st rest
      (s :: tail, st')
    | .sym sn =>
      match alookup st.symbolToIdentifier sn.s with
      | some identifierForSymbol =>
        let (tail, st') := mapIdentifierNames st rest
        (identifierForSymbol :: tail, st')
      | none =>
        -- "If there is no identifier, create one and set it."
        let (identifierForSymbol, st1) := makeIdentifierForSymbol st sn
        let (tail, st') := mapIdentifierNames st1 rest
        (identifierForSymbol :: tail, st')

mutual

/-- `print(untrustedInput, indent)`: render a fragment, returning the text
and the updated scratch state.  `ph` is the caller's `placeholderValues`
map; `fuel` bounds the depth of placeholder resolution (each resolved
placeholder is rendered recursively with one unit less). -/
def printSQL (ph : List (JSSymbol × SQL)) (fuel : Nat) (input : SQL)
    (indent : Nat) (st : CompileState) :
    Except CompileError (String × CompileState) :=
  match input with
  | .query nodes _flags =>
    match printItems ph fuel nodes nodes.length 0 indent st [] with
    | .ok (sqlFragments, st') => .ok (String.join sqlFragments, st')
    | .error e => .error e
  | .node n =>
    -- a non-QUERY input is treated as the singleton sequence [input]
    match printItems ph fuel [n] 1 0 indent st [] with
    | .ok (sqlFragments, st') => .ok (String.join sqlFragments, st')
    | .error e => .error e
termination_by (fuel, 2 * sizeSQL input + 1)
decreasing_by
  all_goals simp_wf
  all_goals first
    | (apply Prod.Lex.right; simp only [sizeSQL, sizeNode, sizeNodes]; omega)
    | (apply Prod.Lex.left; omega)

/-- The item loop of `print`: process the remaining `items`, extending the
accumulated `sqlFragments`. -/
def printItems (ph : List (JSSymbol × SQL)) (fuel : Nat)
    (items : List SQLNode) (itemCount itemIndex indent : Nat)
    (st : CompileState) (sqlFragments : List String) :
    Except CompileError (List String × CompileState) :=
  match items with
  | [] => .ok (sqlFragments, st)
  | item :: rest =>
    match printItem ph fuel item itemCount itemIndex indent st sqlFragments with
    | .ok (sqlFragments', st') =>
      printItems ph fuel rest itemCount (itemIndex + 1) indent st' sqlFragments'
    | .error e => .error e
termination_by (fuel, 2 * sizeNodes items)
decreasing_by
  all_goals simp_wf
  all_goals first
    | (apply Prod.Lex.right; simp only [sizeSQL, sizeNode, sizeNodes]; omega)
    | (apply Prod.Lex.left; omega)

/-- One `switch (item.type)` step of `print`. -/
def printItem (ph : List (JSSymbol × SQL)) (fuel : Nat) (item : SQLNode)
    (itemCount itemIndex indent : Nat) (st : CompileState)
    (sqlFragments : List String) :
    Except CompileError (List String × CompileState) :=
  match item with
  | .raw text =>
    if text = "" then
      -- "No need to add blank raw text!"
      .ok (sqlFragments, st)
    else
      -- Dev-only special case for a final `;`: strip the newline that ends
      -- the previously pushed fragment.
      let sqlFragments :=
        if isDev && itemIndex = itemCount - 1 && text = ";" then
          match sqlFragments.getLast? with
          | some prev =>
            if prev.endsWith "\n" then sqlFragments.dropLast ++ [prev.dropRight 1]
            else sqlFragments
          | none => sqlFragments
        else sqlFragments
      .ok (sqlFragments ++ [if isDev then devRawText text indent else text], st)
  | .identifier names =>
    -- (The source's throw for a name that is neither a string nor a
    -- SymbolAndName is unreachable here: `IdentName` is exactly that union.)
    let (mappedNames, st') := mapIdentifierNames st names
    .ok (sqlFragments ++
          [if names.length = 1 then mappedNames.headD ""
           else String.intercalate "." mappedNames], st')
  | .value v =>
    let valueCount := st.valueCount + 1
    if valueCount > 65535 then .error .tooManyPlaceholders
    else
      -- `values[valueCount - 1] = item.value`: the write index always
      -- equals the current length, so this appends.
      .ok (sqlFragments ++ ["$" ++ natToString valueCount],
           { st with valueCount := valueCount, values := st.values ++ [v] })
  | .indent content =>
    -- `assert.ok(isDev, "INDENT nodes only allowed in development mode")`
    if isDev then
      match printSQL ph fuel content (indent + 1) st with
      | .ok (inner, st') =>
        .ok (sqlFragments ++
              ["\n" ++ indentSpaces (indent + 1) ++ inner ++ "\n" ++ indentSpaces indent],
             st')
      | .error e => .error e
    else .error .indentNotInDev
  | .parens content force =>
    match printSQL ph fuel content indent st with
    | .ok (inner, st') =>
      if force || !isParensSafe inner then
        .ok (sqlFragments ++ ["(" ++ inner ++ ")"], st')
      else
        .ok (sqlFragments ++ [inner], st')
    | .error e => .error e
  | .symbolAlias a b =>
    let name1 := alookup st.symbolToIdentifier a.s
    let name2 := alookup st.symbolToIdentifier b.s
    if name1.isSome && name2.isSome && name1 ≠ name2 then
      .error .conflictingSymbolAlias
    else
      match name1 with
      | some n1 =>
        .ok (sqlFragments,
             { st with symbolToIdentifier := ainsert st.symbolToIdentifier b.s n1 })
      | none =>
        match name2 with
        | some n2 =>
          .ok (sqlFragments,
               { st with symbolToIdentifier := ainsert st.symbolToIdentifier a.s n2 })
        | none =>
          let (identifierForSymbol, st') := makeIdentifierForSymbol st a
          -- the source re-sets symbol a (already set inside
          -- makeIdentifierForSymbol) and then sets symbol b
          .ok (sqlFragments,
               { st' with
                 symbolToIdentifier :=
                   ainsert (ainsert st'.symbolToIdentifier a.s identifierForSymbol)
                     b.s identifierForSymbol })
  | .placeholder symbol fallback =>
    match (alookup ph symbol).orElse (fun _ => fallback) with
    | none => .error .unresolvedPlaceholder
    | some resolvedPlaceholder =>
      match fuel with
      | 0 => .error .fuelExhausted
      | fuel' + 1 =>
        match printSQL ph fuel' resolvedPlaceholder indent st with
        | .ok (inner, st') => .ok (sqlFragments ++ [inner], st')
        | .error e => .error e
termination_by (fuel, 2 * sizeNode item)
decreasing_by
  all_goals simp_wf
  all_goals first
    | (apply Prod.Lex.right; simp only [sizeSQL, sizeNode, sizeNodes]; omega)
    | (apply Prod.Lex.left; omega)

end

/-- The JS regex class `\s` restricted to the whitespace the printer can
emit (space, newline, tab, carriage return). -/
def jsWhitespace (c : Char) : Bool := c = ' ' || c = '\n' || c = '\t' || c = '\r'

theorem takeWhile_length_lt_of_mem {α : Type} {p : α → Bool} {l : List α} {a : α}
    (ha : a ∈ l) (hpa : p a = false) : (l.takeWhile p).length < l.length := by
  induction l with
  | nil => cases ha
  | cons b t ih =>
    by_cases hb : p b = true
    · rcases List.mem_cons.mp ha with rfl | hmem
      · rw [hpa] at hb; cases hb
      · simpa [List.takeWhile, hb] using Nat.succ_lt_succ (ih hmem)
    · simp only [Bool.not_eq_true] at hb
      simp [List.takeWhile, hb]

/-- The suffix of a whitespace run after its last newline. -/
def afterLastNewline (l : List Char) : List Char :=
  (l.reverse.takeWhile (fun c => c ≠ '\n')).reverse

theorem afterLastNewline_length_lt {l : List Char} (h : '\n' ∈ l) :
    (afterLastNewline l).length < l.length := by
  have h' : '\n' ∈ l.reverse := List.mem_reverse.mpr h
  have := takeWhile_length_lt_of_mem (p := fun c => decide (c ≠ '\n')) h' (by simp)
  simpa [afterLastNewline] using this

/-- Dev-mode only: `text.replace(/\n\s*\n/g, "\n")`.  The scan finds a
newline whose following whitespace run contains another newline; the greedy
match consumes up to the last newline of the run, a single newline is
emitted, and scanning resumes after it. -/
def collapseBlankAux : List Char → List Char
  | [] => []
  | c :: rest =>
    if h : c = '\n' ∧ '\n' ∈ rest.takeWhile jsWhitespace then
      '\n' :: collapseBlankAux
        (afterLastNewline (rest.takeWhile jsWhitespace) ++ rest.dropWhile jsWhitespace)
    else c :: collapseBlankAux rest
termination_by cs => cs.length
decreasing_by
  · have h1 : (afterLastNewline (rest.takeWhile jsWhitespace)).length
        < (rest.takeWhile jsWhitespace).length := afterLastNewline_length_lt h.2
    have h2 : (rest.takeWhile jsWhitespace).length + (rest.dropWhile jsWhitespace).length
        = rest.length := by
      rw [← List.length_append, List.takeWhile_append_dropWhile]
    simp only [List.length_cons, List.length_append]
    omega
  · simp only [List.length_cons]; omega

/-- `text.replace(/\n\s*\n/g, "\n")` (applied by `compile` in dev mode only). -/
def collapseBlankLines (text : String) : String :=
  String.mk (collapseBlankAux text.data)

/-- `compile(sql, options)`: render the fragment from a fresh scratch state
and return the text and collected values.  `fuel` bounds placeholder
recursion depth (see `printSQL`); `ph` is `options.placeholderValues`. -/
def compile (fuel : Nat) (ph : List (JSSymbol × SQL)) (sql : SQL) :
    Except CompileError (String × List JSValue) :=
  match printSQL ph fuel sql 0 initState with
  | .ok (text, st) =>
    .ok ((if isDev then collapseBlankLines text else text), st.values)
  | .error e => .error e

/-! ### Constructors -/

/-- `makeRawNode(text)`: a `RAW` node.  (The LRU cache only affects object
identity; the non-string input check is unrepresentable here.) -/
def makeRawNode (text : String) : SQLNode := .raw text

/-- `makeValueNode(rawValue)`: a `VALUE` node.  Note: no validation of any
kind is performed on the value. -/
def makeValueNode (rawValue : JSValue) : SQLNode := .value rawValue

/-- `makeIndentNode(content)` -/
def makeIndentNode (content : SQL) : SQLNode := .indent content

/-- `makeParensNode(content, force)`: `force ?? false`. -/
def makeParensNode (content : SQL) (force : Option Bool) : SQLNode :=
  .parens content (force.getD false)

/-- `makeSymbolAliasNode(a, b)` -/
def makeSymbolAliasNode (a b : JSSymbol) : SQLNode :=
  .symbolAlias (getSymbolAndName a) (getSymbolAndName b)

/-- `makePlaceholderNode(symbol, fallback)` -/
def makePlaceholderNode (symbol : JSSymbol) (fallback : Option SQL) : SQLNode :=
  .placeholder symbol fallback

/-- `makeQueryNode(nodes, flags = 0)` -/
def makeQueryNode (nodes : List SQLNode) (flags : Nat) : SQL :=
  .query nodes flags

/-- The exported `blank` fragment: an interned empty `RAW` node. -/
def blank : SQLNode := makeRawNode ""

/-- The exported `TRUE` constant. -/
def trueNode : SQLNode := makeRawNode "TRUE"

/-- The exported `FALSE` constant. -/
def falseNode : SQLNode := makeRawNode "FALSE"

/-- The exported `NULL` constant. -/
def nullNode : SQLNode := makeRawNode "NULL"

/-- `raw(text)`: the dangerous escape hatch (the one-shot console warning
is irrelevant to the returned fragment). -/
def raw (text : String) : SQL := .node (makeRawNode text)

/-- An argument to `identifier(...)`: a string or a symbol (other runtime
types make the source throw; they are unrepresentable here). -/
inductive IdentArg
  | str (s : String)
  | sym (s : JSSymbol)

/-- `identifier(...names)`: at least one argument; strings are escaped
eagerly, symbols are paired with their mangled description. -/
def identifier (names : List IdentArg) : Except String SQL :=
  if names.length = 0 then
    .error "sql.identifier requires at least one argument"
  else
    .ok (.node (.identifier (names.map
      (fun name =>
        match name with
        | .str s => IdentName.str (escapeSqlIdentifier s)
        | .sym s => IdentName.sym (getSymbolAndName s)))))

/-- `value(val)`: wraps the given runtime value in a `VALUE` node.  There is
no runtime validation: any value, scalar or not, is accepted. -/
def value (val : JSValue) : SQL := .node (makeValueNode val)

/-- The inline-safe string alphabet of `literal`: `^[-a-zA-Z0-9_@!$ :".]*$`. -/
def isInlineSafeChar (c : Char) : Bool :=
  c = '-' || isLowerAZ c || isUpperAZ c || isDigitCh c || c = '_' || c = '@' ||
    c = '!' || c = '$' || c = ' ' || c = ':' || c = '"' || c = '.'

/-- `literal(val)`: inline simple values as raw SQL, defer to `value`
otherwise.  `JSValue.undef` takes the `val == null` branch, as in JS. -/
def literal (val : JSValue) : SQL :=
  match val with
  | .str s =>
    if s.data.all isInlineSafeChar then raw ("'" ++ s ++ "'")
    else value val
  | .num (.int i) => raw (toString i)
  | .num (.decimal r) => raw ("'" ++ r ++ "'::float")
  | .num .nonFinite => value val
  | .bool b => .node (if b then trueNode else falseNode)
  | .null => .node nullNode
  | .undef => .node nullNode
  | .arr vs => value val
  | .obj id => value val

/-- `parens(fragment, force)`: wrap in parens if necessary, simplifying
single-child queries, nested parens, and indents around non-forced parens.
An empty `QUERY` is an error. -/
def parens (fragment : SQL) (force : Option Bool) : Except String SQL :=
  match fragment with
  | .query nodes flags =>
    match nodes with
    | [] => .error "parens applied to an empty fragment"
    | [n] => parens (.node n) force
    | _ => .ok (.node (makeParensNode fragment force))
  | .node (.parens content pforce) =>
    -- `fragment.force || !force` (with `!undefined === true`)
    if pforce || !(force.getD false) then .ok fragment
    else parens content (some true)
  | .node (.indent content) =>
    match content with
    | .query cnodes cflags =>
      match cnodes with
      | [inner] =>
        match inner with
        | .parens c pf =>
          if !pf then .ok (.node (makeParensNode c force))
          else .ok (.node (makeParensNode fragment force))
        | _ => .ok (.node (makeParensNode fragment force))
      | _ => .ok (.node (makeParensNode fragment force))
    | .node (.parens c pf) =>
      if !pf then .ok (.node (makeParensNode c force))
      else .ok (.node (makeParensNode fragment force))
    | _ => .ok (.node (makeParensNode fragment force))
  | _ => .ok (.node (makeParensNode fragment force))

/-- `symbolAlias(symbol1, symbol2)` -/
def symbolAlias (symbol1 symbol2 : JSSymbol) : SQL :=
  .node (makeSymbolAliasNode symbol1 symbol2)

/-- `placeholder(symbol, fallback)` -/
def placeholder (symbol : JSSymbol) (fallback : Option SQL) : SQL :=
  .node (makePlaceholderNode symbol fallback)

/-- The items loop of the `sql` template tag: interleave the raw text
pieces with the interpolated fragments, inlining `QUERY` nodes.  For a
template literal, `strings` has exactly one more entry than `values`. -/
def sqlTplItems : List String → List SQL → List SQLNode
  | [], _ => []
  | text :: restStrings, values =>
    let items := if text.length > 0 then [makeRawNode text] else []
    match restStrings with
    | [] => items
    | _ :: _ =>
      match values with
      | [] => items
      | v :: restValues =>
        items ++
          (match v with
           | .query nodes _flags => nodes
           | .node n => [n]) ++
          sqlTplItems restStrings restValues

/-- The `sql` template tag: a one-piece template yields an interned raw
node (`blank` for the empty string), otherwise the pieces are assembled
into a `QUERY` with cleared flags. -/
def sqlTpl (strings : List String) (values : List SQL) : SQL :=
  match strings with
  | [first] => if first = "" then .node blank else .node (makeRawNode first)
  | [] => .node blank
  | _ => makeQueryNode (sqlTplItems strings values) 0

/-! ### Structural equivalence -/

/-- An argument of `isEquivalent`, whose source signature is
`SQL | symbol`. -/
inductive SQLOrSymbol
  | sql (s : SQL)
  | sym (s : JSSymbol)

/-- JS `===` on two `SQL | symbol` arguments, given an oracle `refEq` for
reference equality of fragment objects.  Symbols compare by identity
(structural here); a symbol is never `===` an object. -/
def strictEqTop (refEq : SQL → SQL → Bool) : SQLOrSymbol → SQLOrSymbol → Bool
  | .sym s1, .sym s2 => s1 = s2
  | .sql f1, .sql f2 => refEq f1 f2
  | _, _ => false

/-- The loop of `getSubstitute`: follow the substitution map for at most
`fuel` hops, failing on self-loops and cycles. -/
def getSubstituteAux (symbolSubstitutes : Option (List (JSSymbol × JSSymbol))) :
    Nat → List JSSymbol → JSSymbol → Except String JSSymbol
  | 0, _, _ => .error "symbolSubstitutes depth too deep"
  | fuel + 1, path, symbol =>
    if symbol ∈ path then .error "symbolSubstitute cycle detected"
    else
      match symbolSubstitutes.bind (fun m => alookup m symbol) with
      | some sub =>
        if sub = symbol then
          .error "a symbol cannot be an alias for itself"
        else getSubstituteAux symbolSubstitutes fuel (path ++ [symbol]) sub
      | none => .ok symbol

/-- `getSubstitute(initialSymbol, symbolSubstitutes)`: resolve a symbol
through the substitution map (at most 1000 hops, cycle detection). -/
def getSubstitute (initialSymbol : JSSymbol)
    (symbolSubstitutes : Option (List (JSSymbol × JSSymbol))) :
    Except String JSSymbol :=
  getSubstituteAux symbolSubstitutes 1000 [] initialSymbol

/-- `identifiersAreEquivalent(ids1, ids2, symbolSubstitutes)`: string parts
by equality, symbol parts by mangled name and substituted symbol. -/
def identifiersAreEquivalent (ids1 ids2 : IdentName)
    (symbolSubstitutes : Option (List (JSSymbol × JSSymbol))) :
    Except String Bool :=
  match ids1, ids2 with
  | .str s1, .str s2 => .ok (s1 = s2)
  | .str _, .sym _ => .ok false
  | .sym _, .str _ => .ok false
  | .sym a, .sym b => do
    let namesMatch := a.n = b.n
    let symbol1 ← getSubstitute a.s symbolSubstitutes
    let symbol2 ← getSubstitute b.s symbolSubstitutes
    .ok (namesMatch && symbol1 = symbol2)

/-- `arraysMatch` specialised to identifier name lists: length check first,
then pointwise comparison.  (The `array1 === array2` reference shortcut is
omitted: a shared array is pointwise-equal anyway.) -/
def identListMatch (symbolSubstitutes : Option (List (JSSymbol × JSSymbol))) :
    List IdentName → List IdentName → Except String Bool
  | [], [] => .ok true
  | a :: as, b :: bs => do
    let r ← identifiersAreEquivalent a b symbolSubstitutes
    if r then identListMatch symbolSubstitutes as bs else .ok false
  | _, _ => .ok false

/-- Termination measure for `isEquivalent`: size of the left argument. -/
def sizeOrSym : SQLOrSymbol → Nat
  | .sym _ => 0
  | .sql f => sizeSQL f

mutual

/-- `isEquivalent(sql1, sql2, options)`.  `refEq` and `valEq` are oracles
for JS `===` on fragment objects and on runtime values (primitives compare
structurally, objects by reference). -/
def isEquivalent (refEq : SQL → SQL → Bool) (valEq : JSValue → JSValue → Bool)
    (symbolSubstitutes : Option (List (JSSymbol × JSSymbol)))
    (sql1 sql2 : SQLOrSymbol) : Except String Bool :=
  if strictEqTop refEq sql1 sql2 then .ok true
  else
    match sql1 with
    | .sym s1 =>
      -- `if (symbolSubstitutes?.has(sql1)) return symbolSubstitutes.get(sql1) === sql2;`
      match symbolSubstitutes.bind (fun m => alookup m s1) with
      | some mapped =>
        .ok (match sql2 with
             | .sym t => mapped = t
             | .sql _ => false)
      | none => .ok (strictEqTop refEq sql2 sql1)
    | .sql f1 =>
      match sql2 with
      | .sym _ => .ok false
      | .sql f2 =>
        match f1, f2 with
        | .query nodes1 _, .query nodes2 _ =>
          if nodes1.length = nodes2.length then
            isEquivalentNodes refEq valEq symbolSubstitutes nodes1 nodes2
          else .ok false
        | .query _ _, .node _ => .ok false
        | .node _, .query _ _ => .ok false
        | .node n1, .node n2 => isEquivalentNode refEq valEq symbolSubstitutes n1 n2
termination_by 2 * sizeOrSym sql1 + 1
decreasing_by
  all_goals simp_wf
  all_goals simp only [sizeOrSym, sizeSQL, sizeNode, sizeNodes]
  all_goals omega

/-- One `switch (sql1.type)` step of `isEquivalent` for non-`QUERY` nodes. -/
def isEquivalentNode (refEq : SQL → SQL → Bool) (valEq : JSValue → JSValue → Bool)
    (symbolSubstitutes : Option (List (JSSymbol × JSSymbol)))
    (n1 n2 : SQLNode) : Except String Bool :=
  match n1 with
  | .raw t1 =>
    .ok (match n2 with
         | .raw t2 => t1 = t2
         | _ => false)
  | .value v1 =>
    .ok (match n2 with
         | .value v2 => valEq v1 v2
         | _ => false)
  | .indent c1 =>
    match n2 with
    | .indent c2 => isEquivalent refEq valEq symbolSubstitutes (.sql c1) (.sql c2)
    | _ => .ok false
  | .parens c1 force1 =>
    match n2 with
    | .parens c2 force2 =>
      if force2 ≠ force1 then .ok false
      else isEquivalent refEq valEq symbolSubstitutes (.sql c1) (.sql c2)
    | _ => .ok false
  | .identifier names1 =>
    match n2 with
    | .identifier names2 =>
      if names1.length = names2.length then
        identListMatch symbolSubstitutes names1 names2
      else .ok false
    | _ => .ok false
  | .placeholder s1 _ =>
    match n2 with
    | .placeholder s2 _ => do
      let symbol1 ← getSubstitute s1 symbolSubstitutes
      let symbol2 ← getSubstitute s2 symbolSubstitutes
      .ok (symbol1 = symbol2)
    | _ => .ok false
  | .symbolAlias _ _ =>
    -- the source returns false here unconditionally
    .ok false
termination_by 2 * sizeNode n1 + 2
decreasing_by
  all_goals simp_wf
  all_goals simp only [sizeOrSym, sizeSQL, sizeNode, sizeNodes]
  all_goals omega

/-- `arraysMatch` specialised to `QUERY` node lists (lengths already
checked): pointwise `isEquivalent`. -/
def isEquivalentNodes (refEq : SQL → SQL → Bool) (valEq : JSValue → JSValue → Bool)
    (symbolSubstitutes : Option (List (JSSymbol × JSSymbol))) :
    List SQLNode → List SQLNode → Except String Bool
  | [], _ => .ok true
  | a :: as, [] => .ok false
  | a :: as, b :: bs => do
    let r ← isEquivalent refEq valEq symbolSubstitutes (.sql (.node a)) (.sql (.node b))
    if r then isEquivalentNodes refEq valEq symbolSubstitutes as bs else .ok false
termination_by l1 l2 => 2 * sizeNodes l1 + 2
decreasing_by
  all_goals simp_wf
  all_goals simp only [sizeOrSym, sizeSQL, sizeNode, sizeNodes]
  all_goals omega

end

/-! ### Symbol rewriter -/

mutual

/-- `replaceSymbolInNode(frag, needle, replacement)`.  The `Bool` of the
result models JS reference identity: it is `true` exactly when the source
returns the argument object itself, and `false` when it constructs a fresh
node (a `make*` call). -/
def replaceSymbolInNode (frag : SQLNode) (needle replacement : JSSymbol) :
    SQLNode × Bool :=
  match frag with
  | .raw _ => (frag, true)
  | .identifier names =>
    let changed := names.any
      (fun v => match v with
                | .str _ => false
                | .sym sn => sn.s = needle)
    if changed then
      (.identifier (names.map
        (fun v => match v with
                  | .str _ => v
                  | .sym sn =>
                    if sn.s = needle then .sym (getSymbolAndName replacement) else v)),
       false)
    else (frag, true)
  | .value v =>
    -- `frag.value === (needle as any)`: a runtime value modelled by
    -- `JSValue` is never a symbol, so this comparison is always false
    -- (the branch is vacuous, as the spec's design notes observe).
    (frag, true)
  | .indent content =>
    (.indent (replaceSymbol content needle replacement).1, false)
  | .parens content force =>
    (.parens (replaceSymbol content needle replacement).1 force, false)
  | .symbolAlias a b =>
    let newA := if a.s = needle then replacement else a.s
    let newB := if b.s = needle then replacement else b.s
    if newA ≠ a.s || newB ≠ b.s then (makeSymbolAliasNode newA newB, false)
    else (frag, true)
  | .placeholder symbol fallback =>
    if symbol = needle then (.placeholder replacement fallback, false)
    else (frag, true)

/-- The `frag.nodes.map(...)` loop of `replaceSymbol` on a `QUERY`. -/
def replaceSymbolInNodes (nodes : List SQLNode) (needle replacement : JSSymbol) :
    List (SQLNode × Bool) :=
  match nodes with
  | [] => []
  | n :: rest =>
    replaceSymbolInNode n needle replacement ::
      replaceSymbolInNodes rest needle replacement

/-- `replaceSymbol(frag, needle, replacement)`, with the same reference
tracking as `replaceSymbolInNode`. -/
def replaceSymbol (frag : SQL) (needle replacement : JSSymbol) : SQL × Bool :=
  match frag with
  | .query nodes _flags =>
    let results := replaceSymbolInNodes nodes needle replacement
    -- `newNode !== node` for some node, i.e. some result is fresh
    if results.any (fun r => !r.2) then
      (makeQueryNode (results.map (fun r => r.1)) 0, false)
    else (frag, true)
  | .node n =>
    let (n', orig) := replaceSymbolInNode n needle replacement
    (if orig then frag else .node n', orig)

end

/-! ### Auxiliary predicates over fragments (specification side) -/

mutual

/-- Number of `VALUE` nodes a production walk of the fragment emits. -/
def countValuesSQL : SQL → Nat
  | .node n => countValuesNode n
  | .query nodes _ => countValuesNodes nodes

/-- Number of `VALUE` nodes beneath one node. -/
def countValuesNode : SQLNode → Nat
  | .raw _ => 0
  | .identifier _ => 0
  | .value _ => 1
  | .indent c => countValuesSQL c
  | .parens c _ => countValuesSQL c
  | .symbolAlias _ _ => 0
  | .placeholder _ _ => 0

/-- Number of `VALUE` nodes beneath a node list. -/
def countValuesNodes : List SQLNode → Nat
  | [] => 0
  | n :: rest => countValuesNode n + countValuesNodes rest

end

mutual

/-- The scalars of the fragment's `VALUE` nodes, in walk order. -/
def valuesOfSQL : SQL → List JSValue
  | .node n => valuesOfNode n
  | .query nodes _ => valuesOfNodes nodes

/-- The scalars beneath one node, in walk order. -/
def valuesOfNode : SQLNode → List JSValue
  | .raw _ => []
  | .identifier _ => []
  | .value v => [v]
  | .indent c => valuesOfSQL c
  | .parens c _ => valuesOfSQL c
  | .symbolAlias _ _ => []
  | .placeholder _ _ => []

/-- The scalars beneath a node list, in walk order. -/
def valuesOfNodes : List SQLNode → List JSValue
  | [] => []
  | n :: rest => valuesOfNode n ++ valuesOfNodes rest

end

mutual

/-- A fragment built from `RAW`, `IDENTIFIER`, `VALUE` and `PARENS` nodes
only (no `INDENT`, `SYMBOL_ALIAS` or `PLACEHOLDER` anywhere). -/
def plainSQL : SQL → Bool
  | .node n => plainNode n
  | .query nodes _ => plainNodes nodes

/-- `plainSQL` on one node. -/
def plainNode : SQLNode → Bool
  | .raw _ => true
  | .identifier _ => true
  | .value _ => true
  | .indent _ => false
  | .parens c _ => plainSQL c
  | .symbolAlias _ _ => false
  | .placeholder _ _ => false

/-- `plainSQL` on a node list. -/
def plainNodes : List SQLNode → Bool
  | [] => true
  | n :: rest => plainNode n && plainNodes rest

end

mutual

/-- A fragment containing no `SYMBOL_ALIAS` node anywhere (including in
placeholder fallbacks). -/
def noAliasSQL : SQL → Bool
  | .node n => noAliasNode n
  | .query nodes _ => noAliasNodes nodes

/-- `noAliasSQL` on one node. -/
def noAliasNode : SQLNode → Bool
  | .raw _ => true
  | .identifier _ => true
  | .value _ => true
  | .indent c => noAliasSQL c
  | .parens c _ => noAliasSQL c
  | .symbolAlias _ _ => false
  | .placeholder _ fallback =>
    match fallback with
    | some f => noAliasSQL f
    | none => true

/-- `noAliasSQL` on a node list. -/
def noAliasNodes : List SQLNode → Bool
  | [] => true
  | n :: rest => noAliasNode n && noAliasNodes rest

end

mutual

/-- Whether the symbol occurs beneath the fragment in one of the places
`replaceSymbol` rewrites: an `IDENTIFIER` token, a `SYMBOL_ALIAS` side, or
a `PLACEHOLDER` handle.  (Like `replaceSymbol`, this does not look inside
placeholder fallbacks.) -/
def occursSQL (s : JSSymbol) : SQL → Bool
  | .node n => occursNode s n
  | .query nodes _ => occursNodes s nodes

/-- `occursSQL` on one node. -/
def occursNode (s : JSSymbol) : SQLNode → Bool
  | .raw _ => false
  | .identifier names =>
    names.any (fun v => match v with
                        | .str _ => false
                        | .sym sn => sn.s = s)
  | .value _ => false
  | .indent c => occursSQL s c
  | .parens c _ => occursSQL s c
  | .symbolAlias a b => a.s = s || b.s = s
  | .placeholder symbol _ => symbol = s

/-- `occursSQL` on a node list. -/
def occursNodes (s : JSSymbol) : List SQLNode → Bool
  | [] => false
  | n :: rest => occursNode s n || occursNodes s rest

end

/-- Whether a node is one of the wrapper shapes (`INDENT` / `PARENS`)
that `replaceSymbolInNode` always rebuilds. -/
def isWrapperNode : SQLNode → Bool
  | .indent _ => true
  | .parens _ _ => true
  | _ => false

/-- Whether the fragment has an `INDENT` or `PARENS` node at its top level
(itself, or directly among a `QUERY`'s nodes). -/
def topHasWrapper : SQL → Bool
  | .node n => isWrapperNode n
  | .query nodes _ => nodes.any isWrapperNode

mutual

/-- The specification's notion of a scalar accepted by `value()`: a string,
a finite number, a boolean, `null`, or a possibly-nested sequence of
scalars; everything else (objects, `undefined`, non-finite numbers) is not
a scalar. -/
def isSpecScalar : JSValue → Bool
  | .str _ => true
  | .num (.int _) => true
  | .num (.decimal _) => true
  | .num .nonFinite => false
  | .bool _ => true
  | .null => true
  | .undef => false
  | .arr vs => isSpecScalarList vs
  | .obj _ => false

/-- `isSpecScalar` on each element of a sequence. -/
def isSpecScalarList : List JSValue → Bool
  | [] => true
  | v :: rest => isSpecScalar v && isSpecScalarList rest

end

/-! ### General compilation lemmas -/

theorem compile_raw (fuel : Nat) (ph : List (JSSymbol × SQL)) (t : String) :
    compile fuel ph (raw t) = .ok (t, []) := by
  by_cases h : t = ""
  · subst h
    simp [compile, raw, makeRawNode, printSQL, printItems, printItem, isDev, initState,
          String.join]
  · simp [compile, raw, makeRawNode, printSQL, printItems, printItem, isDev, initState,
          String.join, h]

theorem compile_value (fuel : Nat) (ph : List (JSSymbol × SQL)) (v : JSValue) :
    compile fuel ph (value v) = .ok ("$1", [v]) := by
  simp [compile, value, makeValueNode, printSQL, printItems, printItem, isDev, initState,
        String.join, natToString, natDigits]
  decide

/-! ### Claim C2 -/

/-- C2 (counterexample): `value` applied to a plain object — not a scalar —
does not raise an error; it happily constructs a `VALUE` node carrying the
object.  There is no runtime validation in `value`/`makeValueNode`. -/
theorem value_object_no_error :
    value (JSValue.obj 0) = SQL.node (SQLNode.value (JSValue.obj 0)) ∧
    isSpecScalar (JSValue.obj 0) = false := by
  exact ⟨rfl, rfl⟩

/-- C2 (amended): `value(v)` performs no runtime validation at all: for
every runtime value `v` — scalar or not, including plain objects — it
returns a `VALUE` node wrapping `v` and never raises.  The rejection of
non-scalars exists only in the static (TypeScript) type of `value`, which
is erased at runtime. -/
theorem value_no_validation (v : JSValue) :
    value v = SQL.node (SQLNode.value v) := rfl

/-! ### Claim C4 -/

/-- C4: when `compile` renders a `PARENS` node it wraps the rendered inner
text in parentheses iff `force` is set or the inner text is not
parens-safe; and the parens-safety heuristic answers as the specification
lists on the twelve sample inner texts. -/
theorem parens_wrap_iff_heuristic :
    (∀ ph fuel content force itemCount itemIndex indent st sqlFragments,
       printItem ph fuel (.parens content force) itemCount itemIndex indent st sqlFragments =
         match printSQL ph fuel content indent st with
         | .ok (inner, st') =>
           .ok (sqlFragments ++
                 [if force || !isParensSafe inner then "(" ++ inner ++ ")" else inner], st')
         | .error e => .error e) ∧
    isParensSafe "$1" = true ∧ isParensSafe "12" = true ∧ isParensSafe "0.5" = true ∧
    isParensSafe ".5" = true ∧ isParensSafe "'abc'" = true ∧ isParensSafe "foo" = true ∧
    isParensSafe "\"FoO\".\"bar\"" = true ∧ isParensSafe "schema.table.column" = true ∧
    isParensSafe "a = b" = false ∧ isParensSafe "foo(x)" = false ∧
    isParensSafe "a::text" = false := by
  refine ⟨fun ph fuel content force itemCount itemIndex indent st sqlFragments => ?_,
    by decide, by decide, by decide, by decide, by decide, by decide, by decide,
    by decide, by decide, by decide, by decide⟩
  simp only [printItem]
  cases h : printSQL ph fuel content indent st with
  | error e => simp
  | ok p =>
    cases p with
    | mk inner st' =>
      by_cases hc : (force || !isParensSafe inner) = true
      · simp [hc]
      · simp only [Bool.not_eq_true] at hc
        simp [hc]

/-! ### Claim C5 -/

/-- C5: `literal` inlines simple values (`TRUE`/`FALSE`/`NULL` for
booleans and null, a single-quoted raw node for every string over the
inline-safe alphabet `[-a-zA-Z0-9_@!$ :".]*`) and defers every other
string to `value`, compiling to `$1` with the string as the sole value. -/
theorem literal_simple_values :
    (literal (.bool true) = .node trueNode ∧
     compile 0 [] (literal (.bool true)) = .ok ("TRUE", [])) ∧
    (literal (.bool false) = .node falseNode ∧
     compile 0 [] (literal (.bool false)) = .ok ("FALSE", [])) ∧
    (literal .null = .node nullNode ∧
     compile 0 [] (literal .null) = .ok ("NULL", [])) ∧
    (∀ s : String, s.data.all isInlineSafeChar = true →
       literal (.str s) = raw ("'" ++ s ++ "'") ∧
       compile 0 [] (literal (.str s)) = .ok ("'" ++ s ++ "'", [])) ∧
    (∀ s : String, s.data.all isInlineSafeChar = false →
       literal (.str s) = value (.str s) ∧
       compile 0 [] (literal (.str s)) = .ok ("$1", [.str s])) := by
  refine ⟨⟨by simp [literal], ?_⟩, ⟨by simp [literal], ?_⟩, ⟨by simp [literal], ?_⟩,
          fun s hs => ⟨by simp [literal, hs], ?_⟩,
          fun s hs => ⟨by simp [literal, hs], ?_⟩⟩
  · simpa [literal, trueNode] using compile_raw 0 [] "TRUE"
  · simpa [literal, falseNode] using compile_raw 0 [] "FALSE"
  · simpa [literal, nullNode] using compile_raw 0 [] "NULL"
  · simpa [literal, hs] using compile_raw 0 [] ("'" ++ s ++ "'")
  · simpa [literal, hs] using compile_value 0 [] (.str s)

/-- Witness for C5: the inline-safe string `"hello"` and the unsafe string
`"it's"` instantiate the two conditional conjuncts. -/
theorem literal_simple_values_witness :
    ("hello".data.all isInlineSafeChar = true ∧
     literal (.str "hello") = raw ("'" ++ "hello" ++ "'") ∧
     compile 0 [] (literal (.str "hello")) = .ok ("'" ++ "hello" ++ "'", [])) ∧
    ("it's".data.all isInlineSafeChar = false ∧
     literal (.str "it's") = value (.str "it's") ∧
     compile 0 [] (literal (.str "it's")) = .ok ("$1", [.str "it's"])) := by
  refine ⟨⟨by decide, ?_, ?_⟩, ⟨by decide, ?_, ?_⟩⟩
  · exact (literal_simple_values.2.2.2.1 "hello" (by decide)).1
  · exact (literal_simple_values.2.2.2.1 "hello" (by decide)).2
  · exact (literal_simple_values.2.2.2.2 "it's" (by decide)).1
  · exact (literal_simple_values.2.2.2.2 "it's" (by decide)).2

/-! ### Claim C8 -/

/-- C8 (counterexample): when the two arguments of `isEquivalent` are the
very same `SYMBOL_ALIAS` node — modelled by the reference-equality oracle
answering `true`, which is correct for the one pair it is consulted on —
the reference-equality short-circuit returns `true`, not `false`. -/
theorem isEquivalent_symbolAlias_self_true :
    isEquivalent (fun _ _ => true) (fun _ _ => false) none
      (.sql (.node (.symbolAlias ⟨⟨0, some "u"⟩, "u"⟩ ⟨⟨1, some "u"⟩, "u"⟩)))
      (.sql (.node (.symbolAlias ⟨⟨0, some "u"⟩, "u"⟩ ⟨⟨1, some "u"⟩, "u"⟩))) =
      .ok true := by
  simp [isEquivalent, strictEqTop]

/-- C8 (amended): a `SYMBOL_ALIAS` fragment is equivalent to nothing
*except through the top-level reference-equality short-circuit*: whenever
the `===` oracle does not identify the two arguments, `isEquivalent`
returns `false`, whatever the second argument is. -/
theorem isEquivalent_symbolAlias_false (refEq : SQL → SQL → Bool)
    (valEq : JSValue → JSValue → Bool)
    (subs : Option (List (JSSymbol × JSSymbol))) (x y : SymbolAndName)
    (b : SQLOrSymbol)
    (h : strictEqTop refEq (.sql (.node (.symbolAlias x y))) b = false) :
    isEquivalent refEq valEq subs (.sql (.node (.symbolAlias x y))) b = .ok false := by
  rw [isEquivalent.eq_def, h]
  cases b with
  | sym s => simp
  | sql f =>
    cases f with
    | node n => simp [isEquivalentNode]
    | query nodes flags => simp

/-- Witness for C8's amended theorem: a constant-`false` oracle (two
distinct heap objects) and a concrete second fragment. -/
theorem isEquivalent_symbolAlias_false_witness :
    strictEqTop (fun _ _ => false)
        (.sql (.node (.symbolAlias ⟨⟨0, some "u"⟩, "u"⟩ ⟨⟨1, some "u"⟩, "u"⟩)))
        (.sql (.node (.raw "x"))) = false ∧
    isEquivalent (fun _ _ => false) (fun _ _ => false) none
        (.sql (.node (.symbolAlias ⟨⟨0, some "u"⟩, "u"⟩ ⟨⟨1, some "u"⟩, "u"⟩)))
        (.sql (.node (.raw "x"))) = .ok false := by
  refine ⟨rfl, ?_⟩
  exact isEquivalent_symbolAlias_false (fun _ _ => false) (fun _ _ => false) none
    ⟨⟨0, some "u"⟩, "u"⟩ ⟨⟨1, some "u"⟩, "u"⟩ (.sql (.node (.raw "x"))) rfl

/-! ### Claim C7 -/

/-- C7: when `compile` encounters a `SYMBOL_ALIAS` node: if both tokens
already have aliases and they differ, compilation fails with the
conflicting-alias error; if exactly one token has an alias, the other
adopts it for the rest of the compile; if neither has one, a fresh alias is
assigned exactly as if token `a` were first-seen, and token `b` is bound to
the same alias.  (Nothing is emitted to the text in the non-error cases.) -/
theorem symbolAlias_compile_cases
    (ph : List (JSSymbol × SQL)) (fuel : Nat) (a b : SymbolAndName)
    (itemCount itemIndex indent : Nat) (st : CompileState)
    (sqlFragments : List String) :
    (∀ n1 n2, alookup st.symbolToIdentifier a.s = some n1 →
       alookup st.symbolToIdentifier b.s = some n2 → n1 ≠ n2 →
       printItem ph fuel (.symbolAlias a b) itemCount itemIndex indent st sqlFragments =
         .error .conflictingSymbolAlias) ∧
    (∀ n1, alookup st.symbolToIdentifier a.s = some n1 →
       alookup st.symbolToIdentifier b.s = none →
       ∃ st', printItem ph fuel (.symbolAlias a b) itemCount itemIndex indent st sqlFragments =
           .ok (sqlFragments, st') ∧
         alookup st'.symbolToIdentifier a.s = some n1 ∧
         alookup st'.symbolToIdentifier b.s = some n1 ∧
         st'.values = st.values ∧ st'.valueCount = st.valueCount) ∧
    (∀ n2, alookup st.symbolToIdentifier a.s = none →
       alookup st.symbolToIdentifier b.s = some n2 →
       ∃ st', printItem ph fuel (.symbolAlias a b) itemCount itemIndex indent st sqlFragments =
           .ok (sqlFragments, st') ∧
         alookup st'.symbolToIdentifier a.s = some n2 ∧
         alookup st'.symbolToIdentifier b.s = some n2 ∧
         st'.values = st.values ∧ st'.valueCount = st.valueCount) ∧
    (alookup st.symbolToIdentifier a.s = none →
     alookup st.symbolToIdentifier b.s = none →
       ∃ st', printItem ph fuel (.symbolAlias a b) itemCount itemIndex indent st sqlFragments =
           .ok (sqlFragments, st') ∧
         alookup st'.symbolToIdentifier a.s =
           some (aliasString a.n ((alookup st.descCounter a.n).getD 0 + 1)) ∧
         alookup st'.symbolToIdentifier b.s =
           some (aliasString a.n ((alookup st.descCounter a.n).getD 0 + 1)) ∧
         st'.values = st.values ∧ st'.valueCount = st.valueCount) := by
  refine ⟨?_, ?_, ?_, ?_⟩
  · intro n1 n2 h1 h2 hne
    simp [printItem, h1, h2, hne]
  · intro n1 h1 h2
    have hab : b.s ≠ a.s := by
      intro e; rw [← e, h2] at h1; cases h1
    refine ⟨{ st with symbolToIdentifier := ainsert st.symbolToIdentifier b.s n1 },
      ?_, ?_, ?_, rfl, rfl⟩
    · simp [printItem, h1, h2]
    · simp [ainsert, alookup, hab, h1]
    · simp [ainsert, alookup]
  · intro n2 h1 h2
    have hab : a.s ≠ b.s := by
      intro e; rw [e, h2] at h1; cases h1
    refine ⟨{ st with symbolToIdentifier := ainsert st.symbolToIdentifier a.s n2 },
      ?_, ?_, ?_, rfl, rfl⟩
    · simp [printItem, h1, h2]
    · simp [ainsert, alookup]
    · simp [ainsert, alookup, hab, h2]
  · intro h1 h2
    refine ⟨{ st with
        descCounter := ainsert st.descCounter a.n ((alookup st.descCounter a.n).getD 0 + 1),
        symbolToIdentifier :=
          ainsert (ainsert
            (ainsert st.symbolToIdentifier a.s
              (aliasString a.n ((alookup st.descCounter a.n).getD 0 + 1)))
            a.s (aliasString a.n ((alookup st.descCounter a.n).getD 0 + 1)))
            b.s (aliasString a.n ((alookup st.descCounter a.n).getD 0 + 1)) },
      ?_, ?_, ?_, rfl, rfl⟩
    · simp [printItem, h1, h2, makeIdentifierForSymbol]
    · by_cases hab : b.s = a.s <;> simp [ainsert, alookup, hab]
    · simp [ainsert, alookup]

/-- Witness for C7: a concrete conflicting state (token `a` aliased to
`__u__`, token `b` to `__v__`) makes the compile step fail. -/
theorem symbolAlias_compile_cases_witness :
    alookup [(JSSymbol.mk 0 (some "u"), "__u__"), (JSSymbol.mk 1 (some "v"), "__v__")]
        (JSSymbol.mk 0 (some "u")) = some "__u__" ∧
    alookup [(JSSymbol.mk 0 (some "u"), "__u__"), (JSSymbol.mk 1 (some "v"), "__v__")]
        (JSSymbol.mk 1 (some "v")) = some "__v__" ∧
    printItem [] 0 (.symbolAlias ⟨⟨0, some "u"⟩, "u"⟩ ⟨⟨1, some "v"⟩, "v"⟩) 1 0 0
        { values := [], valueCount := 0,
          symbolToIdentifier :=
            [(JSSymbol.mk 0 (some "u"), "__u__"), (JSSymbol.mk 1 (some "v"), "__v__")],
          descCounter := [("u", 1), ("v", 1)] } [] =
      .error .conflictingSymbolAlias := by
  refine ⟨by simp [alookup], by simp [alookup], ?_⟩
  exact (symbolAlias_compile_cases [] 0 ⟨⟨0, some "u"⟩, "u"⟩ ⟨⟨1, some "v"⟩, "v"⟩ 1 0 0
      _ []).1 "__u__" "__v__" (by simp [alookup]) (by simp [alookup]) (by decide)

/-! ### Claim C10 -/

mutual

/-- Whether no `PARENS` node anywhere beneath the fragment has an empty
`QUERY` as its content.  Every fragment built through the public
constructors satisfies this (`parens` refuses to wrap an empty `QUERY`,
and nothing else creates `PARENS` nodes). -/
def noEmptyParensSQL : SQL → Bool
  | .node n => noEmptyParensNode n
  | .query nodes _ => noEmptyParensNodes nodes

/-- `noEmptyParensSQL` on one node. -/
def noEmptyParensNode : SQLNode → Bool
  | .raw _ => true
  | .identifier _ => true
  | .value _ => true
  | .indent c => noEmptyParensSQL c
  | .parens c _ =>
    (match c with
     | .query [] _ => false
     | _ => true) && noEmptyParensSQL c
  | .symbolAlias _ _ => true
  | .placeholder _ fallback =>
    match fallback with
    | some f => noEmptyParensSQL f
    | none => true

/-- `noEmptyParensSQL` on a node list. -/
def noEmptyParensNodes : List SQLNode → Bool
  | [] => true
  | n :: rest => noEmptyParensNode n && noEmptyParensNodes rest

end

/-- C10 (counterexample): `parens` also raises the empty-fragment error on
a fragment that is *not* an empty `QUERY`: forcing parens onto a non-forced
`PARENS` node whose content is an empty `QUERY` unwraps into the error.
(Such a node cannot be produced by the public constructors.) -/
theorem parens_error_on_non_query :
    (∃ e, parens (.node (.parens (.query [] 0) false)) (some true) = .error e) ∧
    (∀ flags, SQL.node (.parens (.query [] 0) false) ≠ .query [] flags) := by
  constructor
  · refine ⟨"parens applied to an empty fragment", ?_⟩
    simp [parens]
  · intro flags h
    cases h

/-- `parens` on an `INDENT` node never fails: every branch of its
content analysis returns a constructed parens node. -/
theorem parens_indent_ok (c : SQL) (force : Option Bool) (e : String)
    (he : parens (.node (.indent c)) force = .error e) : False := by
  rcases c with ⟨n⟩ | ⟨nodes, cflags⟩
  · rcases n with t | names | v | cc | ⟨cc, ppf⟩ | ⟨x, y⟩ | ⟨sym, fb⟩
    · simp [parens] at he
    · simp [parens] at he
    · simp [parens] at he
    · simp [parens] at he
    · cases ppf <;> simp [parens] at he
    · simp [parens] at he
    · simp [parens] at he
  · rcases nodes with _ | ⟨m, rest⟩
    · simp [parens] at he
    · rcases rest with _ | ⟨m2, rest2⟩
      · rcases m with t | names | v | cc | ⟨cc, ppf⟩ | ⟨x, y⟩ | ⟨sym, fb⟩
        · simp [parens] at he
        · simp [parens] at he
        · simp [parens] at he
        · simp [parens] at he
        · cases ppf <;> simp [parens] at he
        · simp [parens] at he
        · simp [parens] at he
      · simp [parens] at he

/-- The empty-parens analysis behind C10's amended claim: under
`noEmptyParensSQL`, `parens` errors exactly on an empty `QUERY` input. -/
theorem parens_error_iff_aux (f : SQL) (force : Option Bool)
    (h : noEmptyParensSQL f = true) :
    (∃ e, parens f force = .error e) ↔ (∃ flags, f = .query [] flags) := by
  match f with
  | .query [] flags =>
    constructor
    · intro _; exact ⟨flags, rfl⟩
    · intro _
      refine ⟨"parens applied to an empty fragment", ?_⟩
      simp [parens]
  | .query [n] flags =>
    have hn : noEmptyParensSQL (.node n) = true := by
      simp only [noEmptyParensSQL, noEmptyParensNodes, Bool.and_eq_true] at h ⊢
      exact h.1
    have step : parens (.query [n] flags) force = parens (.node n) force := by
      simp [parens]
    rw [step, parens_error_iff_aux (.node n) force hn]
    constructor
    · rintro ⟨flags', h'⟩; cases h'
    · rintro ⟨flags', h'⟩; cases h'
  | .query (n1 :: n2 :: rest) flags =>
    constructor
    · rintro ⟨e, he⟩
      simp [parens] at he
    · rintro ⟨flags', h'⟩; cases h'
  | .node (.parens c pforce) =>
    by_cases hcond : (pforce || !(force.getD false)) = true
    · constructor
      · rintro ⟨e, he⟩
        simp [parens, hcond] at he
      · rintro ⟨flags', h'⟩; cases h'
    · have step : parens (.node (.parens c pforce)) force = parens c (some true) := by
        conv_lhs => rw [parens]
        simp [hcond]
      have h2 := h
      simp only [noEmptyParensSQL, noEmptyParensNode, Bool.and_eq_true] at h2
      have hne : ∀ flags, c ≠ .query [] flags := by
        intro flags hcq
        rw [hcq] at h2
        simp at h2
      rw [step, parens_error_iff_aux c (some true) h2.2]
      constructor
      · rintro ⟨flags2, hq⟩
        exact absurd hq (hne flags2)
      · rintro ⟨flags2, hq⟩; cases hq
  | .node (.indent c) =>
    constructor
    · rintro ⟨e, he⟩
      exact absurd he (fun he => parens_indent_ok c force e he)
    · rintro ⟨flags', h'⟩; cases h'
  | .node (.raw t) =>
    constructor
    · rintro ⟨e, he⟩; simp [parens] at he
    · rintro ⟨flags', h'⟩; cases h'
  | .node (.identifier names) =>
    constructor
    · rintro ⟨e, he⟩; simp [parens] at he
    · rintro ⟨flags', h'⟩; cases h'
  | .node (.value v) =>
    constructor
    · rintro ⟨e, he⟩; simp [parens] at he
    · rintro ⟨flags', h'⟩; cases h'
  | .node (.symbolAlias x y) =>
    constructor
    · rintro ⟨e, he⟩; simp [parens] at he
    · rintro ⟨flags', h'⟩; cases h'
  | .node (.placeholder sym fb) =>
    constructor
    · rintro ⟨e, he⟩; simp [parens] at he
    · rintro ⟨flags', h'⟩; cases h'
termination_by sizeOf f
decreasing_by
  all_goals simp
  all_goals omega

/-- C10 (amended): for every fragment in which no `PARENS` node has an
empty `QUERY` as content — all publicly constructible ones — `parens`
raises the empty-fragment error exactly when the fragment itself is an
empty `QUERY`; the blank fragment (a `RAW` node of empty text) is
accepted, and compiling the resulting parens node yields `()` with no
values, because the empty rendered inner text is not parens-safe. -/
theorem parens_empty_iff_and_blank :
    (∀ (f : SQL) (force : Option Bool), noEmptyParensSQL f = true →
       ((∃ e, parens f force = .error e) ↔ (∃ flags, f = .query [] flags))) ∧
    parens (.node blank) none = .ok (.node (makeParensNode (.node blank) none)) ∧
    isParensSafe "" = false ∧
    compile 0 [] (.node (makeParensNode (.node blank) none)) = .ok ("()", []) := by
  refine ⟨parens_error_iff_aux, ?_, by decide, ?_⟩
  · simp [parens, blank, makeRawNode, makeParensNode]
  · simp +decide [compile, makeParensNode, blank, makeRawNode, printSQL, printItems,
        printItem, isDev, initState, String.join, isParensSafe, matchesDollarNum,
        matchesNumber, matchesDotNumber, matchesSingleQuoted, splitOnDot,
        matchesDoubleQuoted, isWordChar]

/-- Witness for C10's amended theorem: the empty `QUERY` itself satisfies
the hypothesis and does error. -/
theorem parens_empty_iff_and_blank_witness :
    noEmptyParensSQL (.query [] 5) = true ∧
    (∃ e, parens (.query [] 5) none = .error e) := by
  constructor
  · simp [noEmptyParensSQL, noEmptyParensNodes]
  · exact (parens_empty_iff_and_blank.1 (.query [] 5) none
      (by simp [noEmptyParensSQL, noEmptyParensNodes])).mpr ⟨5, rfl⟩

/-! ### Claim C6 -/

/-- C6 (counterexample): even when the needle occurs nowhere beneath an
`INDENT` fragment, `replaceSymbol` returns a freshly constructed node
(reference flag `false`) rather than the original object — the result is
structurally equal but not the same reference, because the `INDENT` and
`PARENS` cases of `replaceSymbolInNode` unconditionally call the node
constructors. -/
theorem replaceSymbol_indent_fresh :
    occursSQL ⟨0, none⟩ (.node (.indent (.node (.raw "x")))) = false ∧
    (replaceSymbol (.node (.indent (.node (.raw "x")))) ⟨0, none⟩ ⟨1, none⟩).2 = false ∧
    (replaceSymbol (.node (.indent (.node (.raw "x")))) ⟨0, none⟩ ⟨1, none⟩).1 =
      .node (.indent (.node (.raw "x"))) := by
  refine ⟨?_, ?_, ?_⟩ <;>
    simp [occursSQL, occursNode, replaceSymbol, replaceSymbolInNode, replaceSymbolInNodes]

theorem replaceNode_nonwrapper_shares (n : SQLNode) (needle replacement : JSSymbol)
    (hw : isWrapperNode n = false) (ho : occursNode needle n = false) :
    replaceSymbolInNode n needle replacement = (n, true) := by
  cases n with
  | raw t => simp [replaceSymbolInNode]
  | identifier names =>
    simp only [occursNode] at ho
    simp [replaceSymbolInNode, ho]
  | value v => simp [replaceSymbolInNode]
  | indent c => simp [isWrapperNode] at hw
  | parens c force => simp [isWrapperNode] at hw
  | symbolAlias a b =>
    simp only [occursNode, Bool.or_eq_false_iff] at ho
    simp [replaceSymbolInNode, ho.1, ho.2]
  | placeholder sym fb =>
    simp only [occursNode, decide_eq_false_iff_not] at ho
    simp [replaceSymbolInNode, ho]

theorem replaceNode_wrapper_fresh (n : SQLNode) (needle replacement : JSSymbol)
    (hw : isWrapperNode n = true) :
    (replaceSymbolInNode n needle replacement).2 = false := by
  cases n with
  | indent c => simp [replaceSymbolInNode]
  | parens c force => simp [replaceSymbolInNode]
  | raw t => simp [isWrapperNode] at hw
  | identifier names => simp [isWrapperNode] at hw
  | value v => simp [isWrapperNode] at hw
  | symbolAlias a b => simp [isWrapperNode] at hw
  | placeholder sym fb => simp [isWrapperNode] at hw

theorem replaceNodes_all_share (nodes : List SQLNode) (needle replacement : JSSymbol)
    (hw : nodes.any isWrapperNode = false) (ho : occursNodes needle nodes = false) :
    replaceSymbolInNodes nodes needle replacement =
      nodes.map (fun n => (n, true)) := by
  induction nodes with
  | nil => simp [replaceSymbolInNodes]
  | cons n rest ih =>
    simp only [List.any_cons, Bool.or_eq_false_iff] at hw
    simp only [occursNodes, Bool.or_eq_false_iff] at ho
    simp [replaceSymbolInNodes,
          replaceNode_nonwrapper_shares n needle replacement hw.1 ho.1,
          ih hw.2 ho.2]

theorem replaceNodes_any_fresh (nodes : List SQLNode) (needle replacement : JSSymbol)
    (hw : nodes.any isWrapperNode = true) :
    (replaceSymbolInNodes nodes needle replacement).any (fun r => !r.2) = true := by
  induction nodes with
  | nil => simp at hw
  | cons n rest ih =>
    simp only [List.any_cons, Bool.or_eq_true] at hw
    rcases hw with hn | hrest
    · simp [replaceSymbolInNodes,
            replaceNode_wrapper_fresh n needle replacement hn]
    · simp [replaceSymbolInNodes, ih hrest]

/-- C6 (amended): `replaceSymbol` preserves structural sharing for `RAW`,
`VALUE`, `IDENTIFIER`, `SYMBOL_ALIAS` and `PLACEHOLDER` nodes and for
`QUERY` fragments built of such nodes — if the needle occurs nowhere, the
original fragment is returned.  But an `INDENT` or `PARENS` node (or a
`QUERY` containing one) is always rebuilt into a fresh node, occurrence or
not. -/
theorem replaceSymbol_sharing :
    (∀ (f : SQL) (needle replacement : JSSymbol),
       occursSQL needle f = false → topHasWrapper f = false →
       replaceSymbol f needle replacement = (f, true)) ∧
    (∀ (f : SQL) (needle replacement : JSSymbol),
       topHasWrapper f = true →
       (replaceSymbol f needle replacement).2 = false) := by
  constructor
  · intro f needle replacement ho hw
    cases f with
    | node n =>
      simp only [occursSQL] at ho
      simp only [topHasWrapper] at hw
      simp [replaceSymbol, replaceNode_nonwrapper_shares n needle replacement hw ho]
    | query nodes flags =>
      simp only [occursSQL] at ho
      simp only [topHasWrapper] at hw
      simp [replaceSymbol, replaceNodes_all_share nodes needle replacement hw ho,
            List.any_map]
  · intro f needle replacement hw
    cases f with
    | node n =>
      simp only [topHasWrapper] at hw
      have := replaceNode_wrapper_fresh n needle replacement hw
      simp [replaceSymbol]
      cases hr : replaceSymbolInNode n needle replacement with
      | mk n2 orig =>
        rw [hr] at this
        simp at this
        simp [this]
    | query nodes flags =>
      simp only [topHasWrapper] at hw
      simp [replaceSymbol, replaceNodes_any_fresh nodes needle replacement hw]

/-- Witness for C6's amended theorem: a needle-free `RAW` fragment is
returned as the original reference; an `INDENT` fragment is rebuilt. -/
theorem replaceSymbol_sharing_witness :
    (occursSQL ⟨0, none⟩ (.node (.raw "x")) = false ∧
     topHasWrapper (.node (.raw "x")) = false ∧
     replaceSymbol (.node (.raw "x")) ⟨0, none⟩ ⟨1, none⟩ = (.node (.raw "x"), true)) ∧
    (topHasWrapper (.node (.indent (.node (.raw "x")))) = true ∧
     (replaceSymbol (.node (.indent (.node (.raw "x")))) ⟨0, none⟩ ⟨1, none⟩).2 = false) := by
  refine ⟨⟨?_, ?_, ?_⟩, ⟨?_, ?_⟩⟩
  · simp [occursSQL, occursNode]
  · simp [topHasWrapper, isWrapperNode]
  · exact replaceSymbol_sharing.1 (.node (.raw "x")) ⟨0, none⟩ ⟨1, none⟩
      (by simp [occursSQL, occursNode]) (by simp [topHasWrapper, isWrapperNode])
  · simp [topHasWrapper, isWrapperNode]
  · exact replaceSymbol_sharing.2 (.node (.indent (.node (.raw "x")))) ⟨0, none⟩ ⟨1, none⟩
      (by simp [topHasWrapper, isWrapperNode])

/-! ### Claim C1 -/

/-- The opaque token of the specification's `user_rows` scenario. -/
def userRowsSymbol : JSSymbol := ⟨0, some "user_rows"⟩

/-- `identifier(tok)` for the `user_rows` token. -/
def userRowsIdentFrag : SQL :=
  .node (.identifier [.sym (getSymbolAndName userRowsSymbol)])

/-- `` sql`from ${identifier(tok)}` `` for the `user_rows` token. -/
def userRowsTemplate : SQL := sqlTpl ["from ", ""] [userRowsIdentFrag]

theorem compile_userRows_eval :
    compile 0 [] userRowsTemplate = .ok ("from __user_rows__", []) := by
  simp +decide [compile, userRowsTemplate, sqlTpl, sqlTplItems, userRowsIdentFrag,
        makeRawNode, makeQueryNode, printSQL, printItems, printItem, isDev, initState,
        mapIdentifierNames, alookup, makeIdentifierForSymbol, aliasString,
        getSymbolAndName, userRowsSymbol, mangleName, collapseBadRuns,
        collapseUnderscoreRuns, mangleLowerStep, dropLeadingUnderscore,
        dropTrailingUnderscore, mangleKeep, isLowerAZ, isUpperAZ, isDigitCh, ainsert,
        String.join, natToString, natDigits]

/-- C1 (counterexample): compiling `template("from ", identifier(tok))`
for an opaque token described `"user_rows"` yields
`from __user_rows__` — the first-occurrence alias carries *two* trailing
underscores (`` `__${safeDesc}_${number === 1 ? "_" : number}` ``), not the
one trailing underscore the claim states. -/
theorem compile_userRows_not_single_underscore :
    compile 0 [] userRowsTemplate = .ok ("from __user_rows__", []) ∧
    (∀ vals, compile 0 [] userRowsTemplate ≠ .ok ("from __user_rows_", vals)) := by
  refine ⟨compile_userRows_eval, ?_⟩
  intro vals hc
  rw [compile_userRows_eval, Except.ok.injEq, Prod.mk.injEq] at hc
  exact absurd hc.1 (by decide)

/-- C1 (amended): during one compile, the first opaque token rendered with
a given mangled description is assigned the alias `__<desc>__` (two
trailing underscores) and the n-th distinct token with that description
(n ≥ 2) is assigned `__<desc>_<n>`; in particular
`compile(template("from ", identifier(tok)))` for a token described
`"user_rows"` yields `from __user_rows__`. -/
theorem alias_first_and_nth :
    (∀ (st : CompileState) (name : SymbolAndName),
       alookup st.descCounter name.n = none →
       (makeIdentifierForSymbol st name).1 = "__" ++ name.n ++ "__") ∧
    (∀ (st : CompileState) (name : SymbolAndName) (k : Nat),
       alookup st.descCounter name.n = some k → 1 ≤ k →
       (makeIdentifierForSymbol st name).1 = "__" ++ name.n ++ "_" ++ natToString (k + 1)) ∧
    identifier [IdentArg.sym userRowsSymbol] = .ok userRowsIdentFrag ∧
    compile 0 [] userRowsTemplate = .ok ("from __user_rows__", []) := by
  refine ⟨?_, ?_, ?_, compile_userRows_eval⟩
  · intro st name h
    simp only [makeIdentifierForSymbol, aliasString, h, Option.getD_none]
    rw [String.append_assoc]
    rfl
  · intro st name k h hk
    have : ¬(k + 1 = 1) := by omega
    simp [makeIdentifierForSymbol, aliasString, h, this]
  · simp [identifier, userRowsIdentFrag, userRowsSymbol]

/-- Witness for C1's amended theorem: a fresh compile state and a token
described `"u"` get the alias `__u__`; a state whose counter for `"u"`
stands at 1 yields `__u_2`. -/
theorem alias_first_and_nth_witness :
    (alookup initState.descCounter "u" = none ∧
     (makeIdentifierForSymbol initState ⟨⟨7, some "u"⟩, "u"⟩).1 = "__" ++ "u" ++ "__") ∧
    (alookup (CompileState.mk [] 0 [] [("u", 1)]).descCounter "u" = some 1 ∧
     (makeIdentifierForSymbol (CompileState.mk [] 0 [] [("u", 1)]) ⟨⟨8, some "u"⟩, "u"⟩).1 =
       "__" ++ "u" ++ "_" ++ natToString 2) := by
  constructor
  · exact ⟨rfl, alias_first_and_nth.1 initState ⟨⟨7, some "u"⟩, "u"⟩ rfl⟩
  · exact ⟨rfl, alias_first_and_nth.2.1 (CompileState.mk [] 0 [] [("u", 1)])
      ⟨⟨8, some "u"⟩, "u"⟩ 1 rfl (by omega)⟩

/-! ### Claim C3 -/

theorem makeIdentifierForSymbol_preserves (st : CompileState) (name : SymbolAndName) :
    (makeIdentifierForSymbol st name).2.values = st.values ∧
    (makeIdentifierForSymbol st name).2.valueCount = st.valueCount := by
  simp [makeIdentifierForSymbol]

theorem mapIdentifierNames_preserves (names : List IdentName) :
    ∀ st : CompileState,
      (mapIdentifierNames st names).2.values = st.values ∧
      (mapIdentifierNames st names).2.valueCount = st.valueCount := by
  induction names with
  | nil => intro st; simp [mapIdentifierNames]
  | cons name rest ih =>
    intro st
    cases name with
    | str s =>
      cases hrec : mapIdentifierNames st rest with
      | mk tail st2 =>
        have := ih st
        rw [hrec] at this
        simpa [mapIdentifierNames, hrec] using this
    | sym sn =>
      cases h : alookup st.symbolToIdentifier sn.s with
      | some i =>
        cases hrec : mapIdentifierNames st rest with
        | mk tail st2 =>
          have := ih st
          rw [hrec] at this
          simpa [mapIdentifierNames, h, hrec] using this
      | none =>
        cases hmk : makeIdentifierForSymbol st sn with
        | mk ident st1 =>
          cases hrec : mapIdentifierNames st1 rest with
          | mk tail st2 =>
            have h1 := makeIdentifierForSymbol_preserves st sn
            rw [hmk] at h1
            have h2 := ih st1
            rw [hrec] at h2
            simp only [mapIdentifierNames, h, hmk, hrec]
            exact ⟨h2.1.trans h1.1, h2.2.trans h1.2⟩

mutual

theorem plainItem_print (ph : List (JSSymbol × SQL)) (fuel : Nat) (item : SQLNode)
    (itemCount itemIndex indent : Nat) (st : CompileState) (acc : List String)
    (hp : plainNode item = true) (hvc : st.valueCount ≤ 65535) :
    (st.valueCount + countValuesNode item ≤ 65535 →
       ∃ frags st', printItem ph fuel item itemCount itemIndex indent st acc =
           .ok (acc ++ frags, st') ∧
         st'.values = st.values ++ valuesOfNode item ∧
         st'.valueCount = st.valueCount + countValuesNode item) ∧
    (65535 < st.valueCount + countValuesNode item →
       printItem ph fuel item itemCount itemIndex indent st acc =
         .error .tooManyPlaceholders) := by
  match item with
  | .raw text =>
    refine ⟨fun _ => ?_, fun hgt => ?_⟩
    · by_cases h : text = ""
      · exact ⟨[], st, by simp [printItem, h], by simp [valuesOfNode], by simp [countValuesNode]⟩
      · exact ⟨[text], st, by simp [printItem, h, isDev], by simp [valuesOfNode],
          by simp [countValuesNode]⟩
    · exfalso
      simp [countValuesNode] at hgt
      omega
  | .identifier names =>
    refine ⟨fun _ => ?_, fun hgt => ?_⟩
    · cases hmap : mapIdentifierNames st names with
      | mk mapped st' =>
        have hpres := mapIdentifierNames_preserves names st
        rw [hmap] at hpres
        refine ⟨[if names.length = 1 then mapped.headD "" else String.intercalate "." mapped],
          st', by simp [printItem, hmap], ?_, ?_⟩
        · simp only [valuesOfNode, List.append_nil]
          exact hpres.1
        · simp only [countValuesNode, Nat.add_zero]
          exact hpres.2
    · exfalso
      simp [countValuesNode] at hgt
      omega
  | .value v =>
    refine ⟨fun hle => ?_, fun hgt => ?_⟩
    · have hcond : ¬(st.valueCount + 1 > 65535) := by
        simp [countValuesNode] at hle
        omega
      exact ⟨["$" ++ natToString (st.valueCount + 1)],
        { st with valueCount := st.valueCount + 1, values := st.values ++ [v] },
        by simp [printItem, hcond], by simp [valuesOfNode], by simp [countValuesNode]⟩
    · have hcond : st.valueCount + 1 > 65535 := by
        simp [countValuesNode] at hgt
        omega
      simp [printItem, hcond]
  | .indent c => simp [plainNode] at hp
  | .parens c force =>
    have hpc : plainSQL c = true := by simpa [plainNode] using hp
    have hrec := plainSQL_print ph fuel c indent st hpc hvc
    refine ⟨fun hle => ?_, fun hgt => ?_⟩
    · simp only [countValuesNode] at hle
      obtain ⟨text, st', hok, hv, hc⟩ := hrec.1 hle
      refine ⟨[if force || !isParensSafe text then "(" ++ text ++ ")" else text], st',
        ?_, by simpa [valuesOfNode] using hv, by simpa [countValuesNode] using hc⟩
      by_cases hw : (force || !isParensSafe text) = true
      · simp [printItem, hok, hw]
      · simp only [Bool.not_eq_true] at hw
        simp [printItem, hok, hw]
    · simp only [countValuesNode] at hgt
      have herr := hrec.2 hgt
      simp [printItem, herr]
  | .symbolAlias a b => simp [plainNode] at hp
  | .placeholder sym fb => simp [plainNode] at hp
termination_by 2 * sizeNode item
decreasing_by
  all_goals simp_wf
  all_goals simp only [sizeSQL, sizeNode, sizeNodes]
  all_goals omega

theorem plainItems_print (ph : List (JSSymbol × SQL)) (fuel : Nat)
    (items : List SQLNode) (itemCount itemIndex indent : Nat) (st : CompileState)
    (acc : List String)
    (hp : plainNodes items = true) (hvc : st.valueCount ≤ 65535) :
    (st.valueCount + countValuesNodes items ≤ 65535 →
       ∃ frags st', printItems ph fuel items itemCount itemIndex indent st acc =
           .ok (acc ++ frags, st') ∧
         st'.values = st.values ++ valuesOfNodes items ∧
         st'.valueCount = st.valueCount + countValuesNodes items) ∧
    (65535 < st.valueCount + countValuesNodes items →
       printItems ph fuel items itemCount itemIndex indent st acc =
         .error .tooManyPlaceholders) := by
  match items with
  | [] =>
    refine ⟨fun _ => ⟨[], st, by simp [printItems], by simp [valuesOfNodes],
      by simp [countValuesNodes]⟩, fun hgt => ?_⟩
    exfalso
    simp [countValuesNodes] at hgt
    omega
  | item :: rest =>
    have hpi : plainNode item = true := by
      simp only [plainNodes, Bool.and_eq_true] at hp
      exact hp.1
    have hpr : plainNodes rest = true := by
      simp only [plainNodes, Bool.and_eq_true] at hp
      exact hp.2
    have hitem := plainItem_print ph fuel item itemCount itemIndex indent st acc hpi hvc
    refine ⟨fun hle => ?_, fun hgt => ?_⟩
    · simp only [countValuesNodes] at hle
      obtain ⟨f1, st1, hok1, hv1, hc1⟩ := hitem.1 (by omega)
      have hvc1 : st1.valueCount ≤ 65535 := by omega
      have hrest := plainItems_print ph fuel rest itemCount (itemIndex + 1) indent st1
        (acc ++ f1) hpr hvc1
      obtain ⟨f2, st2, hok2, hv2, hc2⟩ := hrest.1 (by omega)
      refine ⟨f1 ++ f2, st2, ?_, ?_, ?_⟩
      · simp [printItems, hok1, hok2, List.append_assoc]
      · simp [valuesOfNodes, hv2, hv1, List.append_assoc]
      · simp only [countValuesNodes]
        omega
    · simp only [countValuesNodes] at hgt
      by_cases hsplit : 65535 < st.valueCount + countValuesNode item
      · have herr := hitem.2 hsplit
        simp [printItems, herr]
      · obtain ⟨f1, st1, hok1, hv1, hc1⟩ := hitem.1 (by omega)
        have hvc1 : st1.valueCount ≤ 65535 := by omega
        have hrest := plainItems_print ph fuel rest itemCount (itemIndex + 1) indent st1
          (acc ++ f1) hpr hvc1
        have herr2 := hrest.2 (by omega)
        simp [printItems, hok1, herr2]
termination_by 2 * sizeNodes items
decreasing_by
  all_goals simp_wf
  all_goals simp only [sizeSQL, sizeNode, sizeNodes]
  all_goals omega

theorem plainSQL_print (ph : List (JSSymbol × SQL)) (fuel : Nat) (input : SQL)
    (indent : Nat) (st : CompileState)
    (hp : plainSQL input = true) (hvc : st.valueCount ≤ 65535) :
    (st.valueCount + countValuesSQL input ≤ 65535 →
       ∃ text st', printSQL ph fuel input indent st = .ok (text, st') ∧
         st'.values = st.values ++ valuesOfSQL input ∧
         st'.valueCount = st.valueCount + countValuesSQL input) ∧
    (65535 < st.valueCount + countValuesSQL input →
       printSQL ph fuel input indent st = .error .tooManyPlaceholders) := by
  match input with
  | .query nodes flags =>
    have hpn : plainNodes nodes = true := by simpa [plainSQL] using hp
    have hitems := plainItems_print ph fuel nodes nodes.length 0 indent st [] hpn hvc
    refine ⟨fun hle => ?_, fun hgt => ?_⟩
    · simp only [countValuesSQL] at hle
      obtain ⟨frags, st', hok, hv, hc⟩ := hitems.1 hle
      refine ⟨String.join frags, st', ?_, by simpa [valuesOfSQL] using hv,
        by simpa [countValuesSQL] using hc⟩
      simp [printSQL, hok]
    · simp only [countValuesSQL] at hgt
      have herr := hitems.2 hgt
      simp [printSQL, herr]
  | .node n =>
    have hpn : plainNodes [n] = true := by
      simp only [plainNodes, Bool.and_eq_true]
      refine ⟨by simpa [plainSQL] using hp, by simp [plainNodes]⟩
    have hitems := plainItems_print ph fuel [n] 1 0 indent st [] hpn hvc
    have hcnt : countValuesNodes [n] = countValuesSQL (.node n) := by
      simp [countValuesNodes, countValuesSQL]
    have hvals : valuesOfNodes [n] = valuesOfSQL (.node n) := by
      simp [valuesOfNodes, valuesOfSQL]
    refine ⟨fun hle => ?_, fun hgt => ?_⟩
    · obtain ⟨frags, st', hok, hv, hc⟩ := hitems.1 (by rw [hcnt]; omega)
      refine ⟨String.join frags, st', ?_, ?_, ?_⟩
      · simp [printSQL, hok]
      · rw [hv, hvals]
      · rw [hc, hcnt]
    · have herr := hitems.2 (by rw [hcnt]; omega)
      simp [printSQL, herr]
termination_by 2 * sizeSQL input + 1
decreasing_by
  all_goals simp_wf
  all_goals simp only [sizeSQL, sizeNode, sizeNodes]
  all_goals omega

end

theorem replicate_values_count (n : Nat) (v : JSValue) :
    countValuesNodes (List.replicate n (.value v)) = n ∧
    plainNodes (List.replicate n (.value v)) = true := by
  induction n with
  | zero => simp [countValuesNodes, plainNodes]
  | succ k ih =>
    constructor
    · simp only [List.replicate, countValuesNodes, countValuesNode, ih.1]
      omega
    · simp [List.replicate, plainNodes, plainNode, ih.2]

theorem replicate_values_query (n : Nat) (v : JSValue) (flags : Nat) :
    plainSQL (.query (List.replicate n (.value v)) flags) = true ∧
    countValuesSQL (.query (List.replicate n (.value v)) flags) = n := by
  constructor
  · simp only [plainSQL]
    exact (replicate_values_count n v).2
  · simp only [countValuesSQL]
    exact (replicate_values_count n v).1

/-- C3 (counterexample): a fragment whose walk emits no `VALUE` node at all
(a placeholder with no value and no fallback) still fails to compile — with
the unresolved-placeholder error, not the too-many-placeholders one — so
"at most 65535 Value nodes" does not imply success. -/
theorem compile_placeholder_fails_under_cap :
    countValuesSQL (.node (.placeholder ⟨0, none⟩ none)) = 0 ∧
    compile 1 [] (.node (.placeholder ⟨0, none⟩ none)) = .error .unresolvedPlaceholder ∧
    compile 1 [] (.node (.placeholder ⟨0, none⟩ none)) ≠ .error .tooManyPlaceholders := by
  refine ⟨by simp [countValuesSQL, countValuesNode], ?_, ?_⟩
  · simp [compile, printSQL, printItems, printItem, alookup, initState, Option.orElse]
  · simp [compile, printSQL, printItems, printItem, alookup, initState, Option.orElse]

/-- C3 (amended): restricted to fragments built of `RAW`, `IDENTIFIER`,
`VALUE` and `PARENS` nodes — the shapes with no failure mode of their own —
`compile` fails with the too-many-placeholders error exactly when the walk
emits more than 65535 `VALUE` nodes; otherwise it succeeds with the
scalars in walk order (the k-th emitted scalar at position k-1), and a
`VALUE` node reached with counter k-1 emits exactly the text `$k`.
(Fragments with placeholders, indents or symbol aliases can fail for
their own reasons even with few values.) -/
theorem compile_value_cap :
    (∀ (fuel : Nat) (ph : List (JSSymbol × SQL)) (f : SQL), plainSQL f = true →
       (countValuesSQL f ≤ 65535 →
          ∃ text, compile fuel ph f = .ok (text, valuesOfSQL f)) ∧
       (65535 < countValuesSQL f →
          compile fuel ph f = .error .tooManyPlaceholders)) ∧
    (∀ (ph : List (JSSymbol × SQL)) (fuel : Nat) (v : JSValue)
       (itemCount itemIndex indent : Nat) (st : CompileState) (acc : List String),
       st.valueCount < 65535 →
       printItem ph fuel (.value v) itemCount itemIndex indent st acc =
         .ok (acc ++ ["$" ++ natToString (st.valueCount + 1)],
              { st with valueCount := st.valueCount + 1,
                        values := st.values ++ [v] })) := by
  constructor
  · intro fuel ph f hp
    have h := plainSQL_print ph fuel f 0 initState hp (by simp [initState])
    constructor
    · intro hle
      obtain ⟨text, st', hok, hv, hc⟩ := h.1 (by simp [initState]; omega)
      refine ⟨if isDev then collapseBlankLines text else text, ?_⟩
      simp only [initState] at hv
      simp [compile, hok, hv]
    · intro hgt
      have herr := h.2 (by simp [initState]; omega)
      simp [compile, herr]
  · intro ph fuel v itemCount itemIndex indent st acc hlt
    have hcond : ¬(st.valueCount + 1 > 65535) := by omega
    simp [printItem, hcond]

/-- Witness for C3's amended theorem: a single-value fragment compiles with
its scalar; 65536 values overflow the cap; a `VALUE` step at a fresh state
emits `$1`. -/
theorem compile_value_cap_witness :
    (plainSQL (.node (.value .null)) = true ∧
     countValuesSQL (.node (.value .null)) ≤ 65535 ∧
     (∃ text, compile 0 [] (.node (.value .null)) =
        .ok (text, valuesOfSQL (.node (.value .null))))) ∧
    (plainSQL (.query (List.replicate 65536 (.value .null)) 0) = true ∧
     65535 < countValuesSQL (.query (List.replicate 65536 (.value .null)) 0) ∧
     compile 0 [] (.query (List.replicate 65536 (.value .null)) 0) =
       .error .tooManyPlaceholders) ∧
    (initState.valueCount < 65535 ∧
     printItem [] 0 (.value .null) 1 0 0 initState [] =
       .ok ([] ++ ["$" ++ natToString (initState.valueCount + 1)],
            { initState with valueCount := initState.valueCount + 1,
                             values := initState.values ++ [JSValue.null] })) := by
  have happ : ∀ n : Nat, 65535 < n →
      compile 0 [] (.query (List.replicate n (.value .null)) 0) =
        .error .tooManyPlaceholders := by
    intro n hn
    refine (compile_value_cap.1 0 [] _ (replicate_values_query n .null 0).1).2 ?_
    rw [(replicate_values_query n .null 0).2]
    exact hn
  have hbound : ∀ n : Nat, 65535 < n →
      65535 < countValuesSQL (.query (List.replicate n (.value .null)) 0) := by
    intro n hn
    rw [(replicate_values_query n .null 0).2]
    exact hn
  refine ⟨⟨?_, ?_, ?_⟩, ⟨?_, ?_, ?_⟩, ⟨?_, ?_⟩⟩
  · simp [plainSQL, plainNode]
  · simp [countValuesSQL, countValuesNode]
  · exact (compile_value_cap.1 0 [] (.node (.value .null))
      (by simp [plainSQL, plainNode])).1 (by simp [countValuesSQL, countValuesNode])
  · exact (replicate_values_query 65536 .null 0).1
  · exact hbound 65536 (by omega)
  · exact happ 65536 (by omega)
  · simp [initState]
  · exact compile_value_cap.2 [] 0 .null 1 0 0 initState [] (by simp [initState])

/-! ### Claim C9 -/

theorem digitChar_isDigit : ∀ m : Nat, m < 10 → isDigitCh (Nat.digitChar m) = true := by
  decide

theorem digitChar_inj_lt :
    ∀ m : Nat, m < 10 → ∀ n : Nat, n < 10 → Nat.digitChar m = Nat.digitChar n → m = n := by
  decide

theorem natDigits_ne_nil (n : Nat) : natDigits n ≠ [] := by
  rw [natDigits]
  split <;> simp

theorem natDigits_all_digit (n : Nat) : ∀ c ∈ natDigits n, isDigitCh c = true := by
  induction n using Nat.strong_induction_on with
  | _ n ih =>
    rw [natDigits]
    split
    · next h =>
      intro c hc
      simp at hc
      subst hc
      exact digitChar_isDigit n h
    · next h =>
      intro c hc
      rw [List.mem_append] at hc
      rcases hc with hc | hc
      · exact ih (n / 10) (Nat.div_lt_self (by omega) (by omega)) c hc
      · simp at hc
        subst hc
        exact digitChar_isDigit (n % 10) (Nat.mod_lt _ (by omega))

theorem natDigits_lt (j : Nat) (hj : j < 10) : natDigits j = [Nat.digitChar j] := by
  rw [natDigits]
  rw [dif_pos hj]

theorem natDigits_ge (j : Nat) (hj : ¬j < 10) :
    natDigits j = natDigits (j / 10) ++ [Nat.digitChar (j % 10)] := by
  rw [natDigits]
  rw [dif_neg hj]

theorem natDigits_inj : ∀ m n : Nat, natDigits m = natDigits n → m = n := by
  intro m
  induction m using Nat.strong_induction_on with
  | _ m ih =>
    intro n h
    by_cases hm : m < 10 <;> by_cases hn : n < 10
    · rw [natDigits_lt m hm, natDigits_lt n hn] at h
      simp at h
      exact digitChar_inj_lt m hm n hn h
    · exfalso
      rw [natDigits_lt m hm, natDigits_ge n hn] at h
      have hlen := congrArg List.length h
      cases hd : natDigits (n / 10) with
      | nil => exact natDigits_ne_nil (n / 10) hd
      | cons a t =>
        rw [hd] at hlen
        simp at hlen
    · exfalso
      rw [natDigits_ge m hm, natDigits_lt n hn] at h
      have hlen := congrArg List.length h
      cases hd : natDigits (m / 10) with
      | nil => exact natDigits_ne_nil (m / 10) hd
      | cons a t =>
        rw [hd] at hlen
        simp at hlen
    · rw [natDigits_ge m hm, natDigits_ge n hn] at h
      have h2 := congrArg List.reverse h
      simp only [List.reverse_append, List.reverse_cons, List.reverse_nil,
        List.nil_append, List.cons_append, List.cons.injEq] at h2
      obtain ⟨hx, hrev⟩ := h2
      have h3 : natDigits (m / 10) = natDigits (n / 10) := by
        have := congrArg List.reverse hrev
        simpa using this
      have hdiv := ih (m / 10) (Nat.div_lt_self (by omega) (by omega)) (n / 10) h3
      have hmod : m % 10 = n % 10 :=
        digitChar_inj_lt (m % 10) (Nat.mod_lt _ (by omega)) (n % 10)
          (Nat.mod_lt _ (by omega)) hx
      omega

theorem natToString_inj (m n : Nat) (h : natToString m = natToString n) : m = n := by
  apply natDigits_inj
  simpa [natToString] using congrArg String.data h

theorem append_sep_digits_inj :
    ∀ (a b s t : List Char),
      (∀ c ∈ s, isDigitCh c = true) → (∀ c ∈ t, isDigitCh c = true) →
      a ++ '_' :: s = b ++ '_' :: t → a = b ∧ s = t := by
  intro a
  induction a with
  | nil =>
    intro b s t hs ht h
    cases b with
    | nil => simpa using h
    | cons d bt =>
      simp only [List.nil_append, List.cons_append, List.cons.injEq] at h
      exfalso
      have hm : '_' ∈ s := by
        rw [h.2]
        exact List.mem_append_right _ (List.mem_cons_self _ _)
      exact absurd (hs '_' hm) (by decide)
  | cons c a2 ih =>
    intro b s t hs ht h
    cases b with
    | nil =>
      simp only [List.nil_append, List.cons_append, List.cons.injEq] at h
      exfalso
      have hm : '_' ∈ t := by
        rw [← h.2]
        exact List.mem_append_right _ (List.mem_cons_self _ _)
      exact absurd (ht '_' hm) (by decide)
    | cons d bt =>
      simp only [List.cons_append, List.cons.injEq] at h
      obtain ⟨hab, hst⟩ := ih bt s t hs ht h.2
      exact ⟨by rw [h.1, hab], hst⟩

theorem aliasString_data_one (d : String) :
    (aliasString d 1).data = '_' :: '_' :: (d.data ++ '_' :: ['_']) := by
  simp [aliasString, String.data_append]

theorem aliasString_data_ge (d : String) (k : Nat) (h : ¬k = 1) :
    (aliasString d k).data = '_' :: '_' :: (d.data ++ '_' :: natDigits k) := by
  simp [aliasString, h, String.data_append, natToString]

/-- The (description, counter) pair is recoverable from an alias string:
`aliasString` is injective on counters ≥ 1. -/
theorem aliasString_inj (d d2 : String) (k k2 : Nat) (hk : 1 ≤ k) (hk2 : 1 ≤ k2)
    (h : aliasString d k = aliasString d2 k2) : d = d2 ∧ k = k2 := by
  have hd := congrArg String.data h
  by_cases h1 : k = 1 <;> by_cases h2 : k2 = 1
  · subst h1; subst h2
    rw [aliasString_data_one, aliasString_data_one] at hd
    simp only [List.cons.injEq, true_and] at hd
    exact ⟨String.ext (List.append_cancel_right hd), rfl⟩
  · exfalso
    subst h1
    rw [aliasString_data_one, aliasString_data_ge d2 k2 h2] at hd
    simp only [List.cons.injEq, true_and] at hd
    have hlast := congrArg List.getLast? hd
    rw [List.getLast?_append_of_ne_nil _ (by simp),
        List.getLast?_append_of_ne_nil _ (by simp)] at hlast
    rw [show ('_' :: natDigits k2) = ['_'] ++ natDigits k2 from rfl,
        List.getLast?_append_of_ne_nil _ (natDigits_ne_nil k2)] at hlast
    have hl : (['_', '_'] : List Char).getLast? = some '_' := by decide
    rw [hl] at hlast
    obtain ⟨hnn, hceq⟩ := List.mem_getLast?_eq_getLast (l := natDigits k2) hlast.symm
    have hmem : '_' ∈ natDigits k2 := by
      rw [hceq]
      exact List.getLast_mem hnn
    exact absurd (natDigits_all_digit k2 '_' hmem) (by decide)
  · exfalso
    subst h2
    rw [aliasString_data_ge d k h1, aliasString_data_one] at hd
    simp only [List.cons.injEq, true_and] at hd
    have hlast := congrArg List.getLast? hd
    rw [List.getLast?_append_of_ne_nil _ (by simp),
        List.getLast?_append_of_ne_nil _ (by simp)] at hlast
    rw [show ('_' :: natDigits k) = ['_'] ++ natDigits k from rfl,
        List.getLast?_append_of_ne_nil _ (natDigits_ne_nil k)] at hlast
    have hl : (['_', '_'] : List Char).getLast? = some '_' := by decide
    rw [hl] at hlast
    obtain ⟨hnn, hceq⟩ := List.mem_getLast?_eq_getLast (l := natDigits k) hlast
    have hmem : '_' ∈ natDigits k := by
      rw [hceq]
      exact List.getLast_mem hnn
    exact absurd (natDigits_all_digit k '_' hmem) (by decide)
  · rw [aliasString_data_ge d k h1, aliasString_data_ge d2 k2 h2] at hd
    simp only [List.cons.injEq, true_and] at hd
    have := append_sep_digits_inj d.data d2.data (natDigits k) (natDigits k2)
      (natDigits_all_digit k) (natDigits_all_digit k2) hd
    refine ⟨String.ext this.1, ?_⟩
    apply natDigits_inj
    exact this.2

theorem alookup_mem {α β : Type} [DecidableEq α] (m : List (α × β)) (k : α) (v : β)
    (h : alookup m k = some v) : (k, v) ∈ m := by
  induction m with
  | nil => cases h
  | cons p rest ih =>
    cases p with
    | mk a b =>
      by_cases e : a = k
      · subst e
        simp [alookup] at h
        subst h
        exact List.mem_cons_self _ _
      · simp [alookup, e] at h
        exact List.mem_cons_of_mem _ (ih h)

/-- The invariant maintained by alias assignment during one compile: the
`symbolToIdentifier` map is injective, and every recorded alias is
`aliasString d k` for some description with `1 ≤ k ≤ descCounter[d]`. -/
def StateInv (st : CompileState) : Prop :=
  (∀ s1 s2 a, alookup st.symbolToIdentifier s1 = some a →
     alookup st.symbolToIdentifier s2 = some a → s1 = s2) ∧
  (∀ s a, alookup st.symbolToIdentifier s = some a →
     ∃ d k c, a = aliasString d k ∧ 1 ≤ k ∧ alookup st.descCounter d = some c ∧ k ≤ c)

theorem StateInv_init : StateInv initState := by
  constructor
  · intro s1 s2 a h1 h2
    simp [initState, alookup] at h1
  · intro s a h
    simp [initState, alookup] at h

theorem makeIdentifierForSymbol_spec (st : CompileState) (name : SymbolAndName) :
    (makeIdentifierForSymbol st name).1 =
      aliasString name.n ((alookup st.descCounter name.n).getD 0 + 1) ∧
    (makeIdentifierForSymbol st name).2.symbolToIdentifier =
      (name.s, aliasString name.n ((alookup st.descCounter name.n).getD 0 + 1)) ::
        st.symbolToIdentifier ∧
    (makeIdentifierForSymbol st name).2.descCounter =
      (name.n, (alookup st.descCounter name.n).getD 0 + 1) :: st.descCounter := by
  refine ⟨rfl, rfl, rfl⟩

theorem fresh_alias_not_in_range (st : CompileState) (name : SymbolAndName)
    (hinv : StateInv st) :
    ∀ s a, alookup st.symbolToIdentifier s = some a →
      a ≠ aliasString name.n ((alookup st.descCounter name.n).getD 0 + 1) := by
  intro s a ha heq
  obtain ⟨d, k, c, hAd, hk1, hcd, hkc⟩ := hinv.2 s a ha
  rw [hAd] at heq
  obtain ⟨hdd, hkk⟩ := aliasString_inj d name.n k
    ((alookup st.descCounter name.n).getD 0 + 1) hk1 (by omega) heq
  subst hdd
  rw [hcd] at hkk
  simp at hkk
  omega

theorem makeIdentifierForSymbol_inv (st : CompileState) (name : SymbolAndName)
    (hinv : StateInv st) : StateInv (makeIdentifierForSymbol st name).2 := by
  obtain ⟨hspec1, hspec2, hspec3⟩ := makeIdentifierForSymbol_spec st name
  have hfresh := fresh_alias_not_in_range st name hinv
  constructor
  · intro s1 s2 a h1 h2
    rw [hspec2] at h1 h2
    simp only [alookup] at h1 h2
    by_cases e1 : name.s = s1 <;> by_cases e2 : name.s = s2
    · rw [← e1, ← e2]
    · rw [if_pos e1] at h1
      rw [if_neg e2] at h2
      injection h1 with h1
      exact absurd h1.symm (hfresh s2 a h2)
    · rw [if_neg e1] at h1
      rw [if_pos e2] at h2
      injection h2 with h2
      exact absurd h2.symm (hfresh s1 a h1)
    · rw [if_neg e1] at h1
      rw [if_neg e2] at h2
      exact hinv.1 s1 s2 a h1 h2
  · intro s a ha
    rw [hspec2] at ha
    rw [hspec3]
    simp only [alookup] at ha ⊢
    by_cases e : name.s = s
    · rw [if_pos e] at ha
      injection ha with ha
      refine ⟨name.n, (alookup st.descCounter name.n).getD 0 + 1,
        (alookup st.descCounter name.n).getD 0 + 1, ha.symm, by omega, ?_, le_refl _⟩
      rw [if_pos rfl]
    · rw [if_neg e] at ha
      obtain ⟨d, k, c, hAd, hk1, hcd, hkc⟩ := hinv.2 s a ha
      by_cases ed : name.n = d
      · subst ed
        refine ⟨name.n, k, (alookup st.descCounter name.n).getD 0 + 1, hAd, hk1, ?_, ?_⟩
        · rw [if_pos rfl]
        · rw [hcd]
          simp
          omega
      · exact ⟨d, k, c, hAd, hk1, by rw [if_neg ed]; exact hcd, hkc⟩

theorem mapIdentifierNames_inv (names : List IdentName) :
    ∀ st : CompileState, StateInv st →
      StateInv (mapIdentifierNames st names).2 := by
  induction names with
  | nil => intro st h; simpa [mapIdentifierNames] using h
  | cons name rest ih =>
    intro st h
    cases name with
    | str s0 =>
      cases hrec : mapIdentifierNames st rest with
      | mk tail st2 =>
        have := ih st h
        rw [hrec] at this
        simpa [mapIdentifierNames, hrec] using this
    | sym sn =>
      cases hl : alookup st.symbolToIdentifier sn.s with
      | some i =>
        cases hrec : mapIdentifierNames st rest with
        | mk tail st2 =>
          have := ih st h
          rw [hrec] at this
          simpa [mapIdentifierNames, hl, hrec] using this
      | none =>
        cases hmk : makeIdentifierForSymbol st sn with
        | mk ident st1 =>
          have h1 : StateInv st1 := by
            have := makeIdentifierForSymbol_inv st sn h
            rwa [hmk] at this
          cases hrec : mapIdentifierNames st1 rest with
          | mk tail st2 =>
            have := ih st1 h1
            rw [hrec] at this
            simpa [mapIdentifierNames, hl, hmk, hrec] using this

mutual

theorem noAlias_inv_item (ph : List (JSSymbol × SQL)) (fuel : Nat) (item : SQLNode)
    (itemCount itemIndex indent : Nat) (st : CompileState) (acc : List String)
    (hna : noAliasNode item = true)
    (hph : ∀ p ∈ ph, noAliasSQL p.2 = true) (hinv : StateInv st) :
    ∀ frags st', printItem ph fuel item itemCount itemIndex indent st acc =
      .ok (frags, st') → StateInv st' := by
  intro frags st' h
  match item with
  | .raw text =>
    by_cases htext : text = ""
    · simp [printItem, htext] at h
      rw [← h.2]
      exact hinv
    · simp [printItem, htext, isDev] at h
      rw [← h.2]
      exact hinv
  | .identifier names =>
    cases hmap : mapIdentifierNames st names with
    | mk mapped st2 =>
      simp [printItem, hmap] at h
      have := mapIdentifierNames_inv names st hinv
      rw [hmap] at this
      rw [← h.2]
      exact this
  | .value v =>
    by_cases hcap : st.valueCount + 1 > 65535
    · simp [printItem, hcap] at h
    · simp [printItem, hcap] at h
      rw [← h.2]
      exact ⟨hinv.1, hinv.2⟩
  | .indent c =>
    simp [printItem, isDev] at h
  | .parens c force =>
    cases hinner : printSQL ph fuel c indent st with
    | ok p =>
      cases p with
      | mk inner st2 =>
        have hnc : noAliasSQL c = true := by simpa [noAliasNode] using hna
        have h2 := noAlias_inv_sql ph fuel c indent st hnc hph hinv inner st2 hinner
        by_cases hw : (force || !isParensSafe inner) = true
        · simp [printItem, hinner, hw] at h
          rw [← h.2]
          exact h2
        · simp only [Bool.not_eq_true] at hw
          simp [printItem, hinner, hw] at h
          rw [← h.2]
          exact h2
    | error e =>
      simp [printItem, hinner] at h
  | .symbolAlias a b =>
    simp [noAliasNode] at hna
  | .placeholder symbol fallback =>
    cases hres : (alookup ph symbol).orElse (fun _ => fallback) with
    | none => simp [printItem, hres] at h
    | some resolved =>
      have hnres : noAliasSQL resolved = true := by
        cases hl : alookup ph symbol with
        | some f =>
          have hm := alookup_mem ph symbol f hl
          have := hph (symbol, f) hm
          simp only [Option.orElse, hl] at hres
          injection hres with hres
          rw [← hres]
          exact this
        | none =>
          simp only [Option.orElse, hl] at hres
          cases fallback with
          | none => cases hres
          | some fb =>
            injection hres with hres
            rw [← hres]
            simpa [noAliasNode] using hna
      match fuel with
      | 0 => simp [printItem, hres] at h
      | fuel2 + 1 =>
        cases hrec : printSQL ph fuel2 resolved indent st with
        | ok p =>
          cases p with
          | mk inner st2 =>
            have h2 := noAlias_inv_sql ph fuel2 resolved indent st hnres hph hinv
              inner st2 hrec
            simp [printItem, hres, hrec] at h
            rw [← h.2]
            exact h2
        | error e =>
          simp [printItem, hres, hrec] at h
termination_by (fuel, 2 * sizeNode item)
decreasing_by
  all_goals simp_wf
  all_goals first
    | (apply Prod.Lex.right; simp only [sizeSQL, sizeNode, sizeNodes]; omega)
    | (apply Prod.Lex.left; omega)

theorem noAlias_inv_items (ph : List (JSSymbol × SQL)) (fuel : Nat)
    (items : List SQLNode) (itemCount itemIndex indent : Nat) (st : CompileState)
    (acc : List String)
    (hna : noAliasNodes items = true)
    (hph : ∀ p ∈ ph, noAliasSQL p.2 = true) (hinv : StateInv st) :
    ∀ frags st', printItems ph fuel items itemCount itemIndex indent st acc =
      .ok (frags, st') → StateInv st' := by
  intro frags st' h
  match items with
  | [] =>
    simp [printItems] at h
    rw [← h.2]
    exact hinv
  | item :: rest =>
    have hni : noAliasNode item = true := by
      simp only [noAliasNodes, Bool.and_eq_true] at hna
      exact hna.1
    have hnr : noAliasNodes rest = true := by
      simp only [noAliasNodes, Bool.and_eq_true] at hna
      exact hna.2
    cases hitem : printItem ph fuel item itemCount itemIndex indent st acc with
    | ok p =>
      cases p with
      | mk acc1 st1 =>
        have h1 := noAlias_inv_item ph fuel item itemCount itemIndex indent st acc
          hni hph hinv acc1 st1 hitem
        simp only [printItems, hitem] at h
        exact noAlias_inv_items ph fuel rest itemCount (itemIndex + 1) indent st1 acc1
          hnr hph h1 frags st' h
    | error e =>
      simp [printItems, hitem] at h
termination_by (fuel, 2 * sizeNodes items)
decreasing_by
  all_goals simp_wf
  all_goals first
    | (apply Prod.Lex.right; simp only [sizeSQL, sizeNode, sizeNodes]; omega)
    | (apply Prod.Lex.left; omega)

theorem noAlias_inv_sql (ph : List (JSSymbol × SQL)) (fuel : Nat) (input : SQL)
    (indent : Nat) (st : CompileState)
    (hna : noAliasSQL input = true)
    (hph : ∀ p ∈ ph, noAliasSQL p.2 = true) (hinv : StateInv st) :
    ∀ text st', printSQL ph fuel input indent st = .ok (text, st') → StateInv st' := by
  intro text st' h
  match input with
  | .query nodes flags =>
    have hn : noAliasNodes nodes = true := by simpa [noAliasSQL] using hna
    cases hitems : printItems ph fuel nodes nodes.length 0 indent st [] with
    | ok p =>
      cases p with
      | mk frags st2 =>
        have h2 := noAlias_inv_items ph fuel nodes nodes.length 0 indent st []
          hn hph hinv frags st2 hitems
        simp [printSQL, hitems] at h
        rw [← h.2]
        exact h2
    | error e =>
      simp [printSQL, hitems] at h
  | .node n =>
    have hn : noAliasNodes [n] = true := by
      simp only [noAliasNodes, Bool.and_eq_true]
      exact ⟨by simpa [noAliasSQL] using hna, by simp [noAliasNodes]⟩
    cases hitems : printItems ph fuel [n] 1 0 indent st [] with
    | ok p =>
      cases p with
      | mk frags st2 =>
        have h2 := noAlias_inv_items ph fuel [n] 1 0 indent st []
          hn hph hinv frags st2 hitems
        simp [printSQL, hitems] at h
        rw [← h.2]
        exact h2
    | error e =>
      simp [printSQL, hitems] at h
termination_by (fuel, 2 * sizeSQL input + 1)
decreasing_by
  all_goals simp_wf
  all_goals first
    | (apply Prod.Lex.right; simp only [sizeSQL, sizeNode, sizeNodes]; omega)
    | (apply Prod.Lex.left; omega)

end

/-- The compile state after printing a `SYMBOL_ALIAS` node for two fresh
tokens both described `"u"`. -/
def sharedAliasState : CompileState :=
  ⟨[], 0,
   [(⟨1, some "u"⟩, "__u__"), (⟨0, some "u"⟩, "__u__"), (⟨0, some "u"⟩, "__u__")],
   [("u", 1)]⟩

/-- C9 (counterexample): a `SYMBOL_ALIAS` node binds *two distinct* opaque
tokens to the *same* alias string — within one compile, aliases assigned to
distinct tokens are not pairwise distinct once `symbolAlias` is involved. -/
theorem symbolAlias_assigns_shared_alias :
    printSQL [] 0 (symbolAlias ⟨0, some "u"⟩ ⟨1, some "u"⟩) 0 initState =
      .ok ("", sharedAliasState) ∧
    alookup sharedAliasState.symbolToIdentifier ⟨0, some "u"⟩ = some "__u__" ∧
    alookup sharedAliasState.symbolToIdentifier ⟨1, some "u"⟩ = some "__u__" ∧
    (JSSymbol.mk 0 (some "u")) ≠ (JSSymbol.mk 1 (some "u")) := by
  refine ⟨?_, by simp [sharedAliasState, alookup], by simp [sharedAliasState, alookup],
    by decide⟩
  simp +decide [printSQL, printItems, printItem, symbolAlias, makeSymbolAliasNode,
    getSymbolAndName, mangleName, collapseBadRuns, collapseUnderscoreRuns,
    mangleLowerStep, dropLeadingUnderscore, dropTrailingUnderscore, mangleKeep,
    isLowerAZ, isUpperAZ, isDigitCh, initState, alookup, ainsert,
    makeIdentifierForSymbol, aliasString, natToString, natDigits, String.join,
    sharedAliasState]

/-- C9 (amended): the `(description, counter)` pair is recoverable from an
alias string (`aliasString` is injective for counters ≥ 1, even when one
description equals another followed by an underscore and digits); hence
within one compile of a fragment containing no `SYMBOL_ALIAS` node (with
placeholder values also free of them), the alias strings assigned to
distinct opaque tokens are pairwise distinct. -/
theorem alias_pairwise_distinct :
    (∀ (d d2 : String) (k k2 : Nat), 1 ≤ k → 1 ≤ k2 →
       aliasString d k = aliasString d2 k2 → d = d2 ∧ k = k2) ∧
    (∀ (ph : List (JSSymbol × SQL)) (fuel : Nat) (f : SQL) (text : String)
       (st' : CompileState),
       noAliasSQL f = true → (∀ p ∈ ph, noAliasSQL p.2 = true) →
       printSQL ph fuel f 0 initState = .ok (text, st') →
       ∀ s1 s2 a, alookup st'.symbolToIdentifier s1 = some a →
         alookup st'.symbolToIdentifier s2 = some a → s1 = s2) := by
  constructor
  · intro d d2 k k2 hk hk2 h
    exact aliasString_inj d d2 k k2 hk hk2 h
  · intro ph fuel f text st' hna hph hok
    have := noAlias_inv_sql ph fuel f 0 initState hna hph StateInv_init text st' hok
    exact this.1

/-- Witness for C9's amended theorem: `__u_22` (description `u`, counter
22) cannot equal any alias of description `u_2`; and a compile of one
identifier token yields an injective alias map. -/
theorem alias_pairwise_distinct_witness :
    (aliasString "u" 22 ≠ aliasString "u_2" 2) ∧
    ((JSSymbol.mk 0 (some "u")) = (JSSymbol.mk 0 (some "u"))) := by
  constructor
  · intro h
    have := alias_pairwise_distinct.1 "u" "u_2" 22 2 (by omega) (by omega) h
    exact absurd this.1 (by decide)
  · have hok : printSQL [] 0 (.node (.identifier [.sym ⟨⟨0, some "u"⟩, "u"⟩])) 0
        initState =
        .ok ("__u__", ⟨[], 0, [(⟨0, some "u"⟩, "__u__")], [("u", 1)]⟩) := by
      simp +decide [printSQL, printItems, printItem, mapIdentifierNames, initState,
        alookup, ainsert, makeIdentifierForSymbol, aliasString, natToString, natDigits,
        String.join]
    refine alias_pairwise_distinct.2 [] 0 (.node (.identifier [.sym ⟨⟨0, some "u"⟩, "u"⟩]))
      "__u__" ⟨[], 0, [(⟨0, some "u"⟩, "__u__")], [("u", 1)]⟩
      (by simp [noAliasSQL, noAliasNode]) (by simp) hok
      ⟨0, some "u"⟩ ⟨0, some "u"⟩ "__u__" (by simp [alookup]) (by simp [alookup])

end PgSql2












